import Mathlib

/-!
Verification of the Cloudflare Edge Probe & Proxy Pipeline Engine
(`scanner.py`) against its natural-language specification.

Conventions of the shallow embedding:
* Python floats (monotonic-clock values, latencies, scores, throughput) are
  modelled as exact rationals (`ℚ`); machine integers as `ℕ`/`ℤ`.
* Byte strings are modelled as `List ℕ` with every element `< 256`.
* Stateful concurrent code (the rate limiter) is modelled as a labelled
  transition system whose atomic steps are exactly the lock-held regions of
  the source; each `time.monotonic()` read inside a region is a parameter of
  the step, constrained to be monotone.
* I/O-performing code is split into its pure decision core (embedded) and
  the network effects (abstracted as an input script of events).
-/

namespace Cfray

/-! ### Rate limiter (`CFRateLimiter`, scanner.py lines 725-828)

State fields of `CFRateLimiter.__init__`: `count`, `window_start`,
`blocked_until`.  The extra fields of the model: `waiters` records, for every
coroutine currently parked in the budget-wait of `acquire` (between releasing
and re-acquiring the mutex), the `saved_window` value it observed; `time` is
the largest monotonic-clock value sampled so far (the monotonic clock never
decreases). -/

structure RL where
  count : ℕ
  window_start : ℚ
  blocked_until : ℚ
  waiters : List ℚ
  time : ℚ
  deriving Repr, DecidableEq

/-- `CFRateLimiter.BUDGET = 550`. -/
def BUDGET : ℕ := 550

/-- `CFRateLimiter.WINDOW = 600` seconds. -/
def WINDOW : ℚ := 600

/-- Initial state: `count = 0`, `window_start = 0.0`, `blocked_until = 0.0`. -/
def RL0 : RL := ⟨0, 0, 0, [], 0⟩

/-- First statement of the lock-held region of `acquire`:
`if self.blocked_until > 0 and time.monotonic() >= self.blocked_until`,
reset `count`, set `window_start` to a fresh clock read, clear
`blocked_until`.  `t1` is the comparison read, `t2` the assignment read. -/
def recheckBlocked (s : RL) (t1 t2 : ℚ) : RL :=
  if 0 < s.blocked_until ∧ s.blocked_until ≤ t1 then
    { s with count := 0, window_start := t2, blocked_until := 0 }
  else s

/-- `if self.window_start == 0.0: self.window_start = now`. -/
def windowInit (s : RL) (now : ℚ) : RL :=
  if s.window_start = 0 then { s with window_start := now } else s

/-- `if now - self.window_start >= self.WINDOW:` reset `count`, restart
the window at `now`. -/
def windowRoll (s : RL) (now : ℚ) : RL :=
  if WINDOW ≤ now - s.window_start then
    { s with count := 0, window_start := now }
  else s

/-- The prelude of the lock-held region of `acquire`: blocked-until
re-check, window-start initialisation, window rollover.  `t3` is the
`now = time.monotonic()` read. -/
def acquirePrelude (s : RL) (t1 t2 t3 : ℚ) : RL :=
  windowRoll (windowInit (recheckBlocked s t1 t2) t3) t3

/-- Tail of `acquire` when the budget check passes: `self.count += 1`. -/
def fastUpd (s1 : RL) (t3 : ℚ) : RL :=
  { s1 with count := s1.count + 1, time := t3 }

/-- Tail of `acquire` on the (dead) `remaining <= 0` branch:
reset `count`, restart window at a fresh read `t4`, then `count += 1`. -/
def staleUpd (s1 : RL) (t4 : ℚ) : RL :=
  { s1 with count := 1, window_start := t4, time := t4 }

/-- `acquire` entering the budget wait: it records
`saved_window = self.window_start` and releases the mutex. -/
def waitStartUpd (s1 : RL) (t3 : ℚ) : RL :=
  { s1 with waiters := s1.window_start :: s1.waiters, time := t3 }

/-- `acquire` after the budget wait re-acquires the mutex:
`if self.window_start == saved_window:` reset `count` and restart the
window at a fresh read `t`; in either case `self.count += 1`. -/
def waitFinishUpd (s : RL) (saved t : ℚ) : RL :=
  { s with
    count := (if s.window_start = saved then 0 else s.count) + 1,
    window_start := if s.window_start = saved then t else s.window_start,
    waiters := s.waiters.erase saved,
    time := t }

/-- `CFRateLimiter.report_429`: `capped = min(max(retry_after, 30), 600)`;
`until = time.monotonic() + capped`;
`if until > self.blocked_until: self.blocked_until = until`.
`report_429` is synchronous, hence one atomic region under asyncio. -/
def report429 (s : RL) (t : ℚ) (retry_after : ℤ) : RL :=
  { s with
    blocked_until := max s.blocked_until
      (t + ((min (max retry_after 30) 600 : ℤ) : ℚ)),
    time := t }

/-- One atomic step of the rate limiter under cooperative (asyncio)
concurrency.  Each constructor is one lock-held region of
`CFRateLimiter.acquire` (or the synchronous `report_429`); the clock
parameters are the successive `time.monotonic()` reads of that region and
never run backwards. -/
inductive Step : RL → RL → Prop
  | fast (s : RL) (t1 t2 t3 : ℚ) (h0 : s.time ≤ t1) (h1 : t1 ≤ t2)
      (h2 : t2 ≤ t3) (hb : (acquirePrelude s t1 t2 t3).count < BUDGET) :
      Step s (fastUpd (acquirePrelude s t1 t2 t3) t3)
  | stale (s : RL) (t1 t2 t3 t4 : ℚ) (h0 : s.time ≤ t1) (h1 : t1 ≤ t2)
      (h2 : t2 ≤ t3) (h3 : t3 ≤ t4)
      (hb : BUDGET ≤ (acquirePrelude s t1 t2 t3).count)
      (hr : WINDOW - (t3 - (acquirePrelude s t1 t2 t3).window_start) ≤ 0) :
      Step s (staleUpd (acquirePrelude s t1 t2 t3) t4)
  | waitStart (s : RL) (t1 t2 t3 : ℚ) (h0 : s.time ≤ t1) (h1 : t1 ≤ t2)
      (h2 : t2 ≤ t3) (hb : BUDGET ≤ (acquirePrelude s t1 t2 t3).count)
      (hr : 0 < WINDOW - (t3 - (acquirePrelude s t1 t2 t3).window_start)) :
      Step s (waitStartUpd (acquirePrelude s t1 t2 t3) t3)
  | waitFinish (s : RL) (saved t : ℚ) (interrupted : Bool)
      (hmem : saved ∈ s.waiters) (ht : s.time ≤ t)
      (hw : interrupted = true ∨ saved + WINDOW ≤ t) :
      Step s (waitFinishUpd s saved t)
  | report (s : RL) (t : ℚ) (retry_after : ℤ) (ht : s.time ≤ t) :
      Step s (report429 s t retry_after)

/-- Reachability from the freshly constructed limiter. -/
def Reach (s : RL) : Prop := Relation.ReflTransGen Step RL0 s

/-- One complete `acquire` call under sequential (non-overlapping)
execution: nothing interleaves between the two lock-held regions, so a
budget waiter always finds `window_start == saved_window` on wake-up.
`t1 t2 t3` are the prelude clock reads and `tw` the post-wait read. -/
def acquireSeq (s : RL) (t1 t2 t3 tw : ℚ) : RL :=
  let s1 := acquirePrelude s t1 t2 t3
  if s1.count < BUDGET then fastUpd s1 t3
  else if 0 < WINDOW - (t3 - s1.window_start) then
    waitFinishUpd (waitStartUpd s1 t3) s1.window_start tw
  else staleUpd s1 tw

/-- A sequential trace of rate-limiter calls. -/
inductive RLOp
  | acquire (t1 t2 t3 tw : ℚ)
  | report (t : ℚ) (retry_after : ℤ)
  deriving Repr

/-- Run a sequential trace of `acquire` / `report_429` calls. -/
def runSeq (s : RL) : List RLOp → RL
  | [] => s
  | RLOp.acquire t1 t2 t3 tw :: ops => runSeq (acquireSeq s t1 t2 t3 tw) ops
  | RLOp.report t ra :: ops => runSeq (report429 s t ra) ops

end Cfray

namespace Cfray

/-- When no 429 block is pending, the window is initialised and has not
elapsed, the prelude of `acquire` leaves the state unchanged. -/
lemma acquirePrelude_noop (s : RL) (t1 t2 t3 : ℚ)
    (hb : s.blocked_until = 0) (hw : s.window_start ≠ 0)
    (hlt : t3 - s.window_start < WINDOW) :
    acquirePrelude s t1 t2 t3 = s := by
  unfold acquirePrelude recheckBlocked windowInit windowRoll
  rw [hb]
  simp only [lt_irrefl, false_and, if_false, if_neg hw, if_neg (not_le.2 hlt)]

/-- A single fast `acquire` from a quiescent state. -/
lemma step_fast_of (s : RL) (t : ℚ) (hb : s.blocked_until = 0)
    (hw : s.window_start ≠ 0) (hlt : t - s.window_start < WINDOW)
    (ht : s.time ≤ t) (hc : s.count < BUDGET) :
    Step s { s with count := s.count + 1, time := t } := by
  have h := Step.fast s t t t ht le_rfl le_rfl
    (by rw [acquirePrelude_noop s t t t hb hw hlt]; exact hc)
  rwa [acquirePrelude_noop s t t t hb hw hlt] at h

/-- Iterated fast `acquire`s at a fixed instant. -/
lemma reach_fast_n (s : RL) (t : ℚ) (n : ℕ) (hb : s.blocked_until = 0)
    (hw : s.window_start ≠ 0) (hlt : t - s.window_start < WINDOW)
    (ht : s.time = t) (hc : s.count + n ≤ BUDGET) :
    Relation.ReflTransGen Step s { s with count := s.count + n, time := t } := by
  induction n generalizing s with
  | zero =>
    have : { s with count := s.count + 0, time := t } = s := by
      cases s; simp_all
    rw [this]
  | succ n ih =>
    have h1 : Step s { s with count := s.count + 1, time := t } :=
      step_fast_of s t hb hw hlt (le_of_eq ht) (by omega)
    have h2 := ih { s with count := s.count + 1, time := t }
      hb hw hlt rfl (by simpa using by omega)
    exact Relation.ReflTransGen.trans (Relation.ReflTransGen.single h1)
      (by simpa [add_assoc, Nat.add_comm 1 n] using h2)

/-- Iterated `acquire`s entering the budget wait at a fixed instant: each
parks a waiter recording the observed window start. -/
lemma reach_wait_n (s : RL) (t : ℚ) (n : ℕ) (hb : s.blocked_until = 0)
    (hw : s.window_start ≠ 0) (hlt : t - s.window_start < WINDOW)
    (ht : s.time = t) (hc : BUDGET ≤ s.count) :
    Relation.ReflTransGen Step s
      { s with waiters := List.replicate n s.window_start ++ s.waiters,
               time := t } := by
  induction n generalizing s with
  | zero =>
    have : { s with waiters := List.replicate 0 s.window_start ++ s.waiters,
                    time := t } = s := by
      cases s; simp_all
    rw [this]
  | succ n ih =>
    have h1 : Step s { s with waiters := s.window_start :: s.waiters,
                              time := t } := by
      have h := Step.waitStart s t t t (le_of_eq ht) le_rfl le_rfl
        (by rw [acquirePrelude_noop s t t t hb hw hlt]; exact hc)
        (by rw [acquirePrelude_noop s t t t hb hw hlt]; unfold WINDOW at hlt ⊢; linarith)
      rwa [acquirePrelude_noop s t t t hb hw hlt] at h
    have h2 := ih { s with waiters := s.window_start :: s.waiters, time := t }
      hb hw hlt rfl hc
    refine Relation.ReflTransGen.trans (Relation.ReflTransGen.single h1) ?_
    simpa [List.replicate_succ'] using h2

/-- Iterated stale-waiter wake-ups: each waiter that observed an outdated
window start finds `window_start ≠ saved_window`, skips the reset, and
increments the counter anyway. -/
lemma reach_finish_stale_n (s : RL) (saved t : ℚ) (n : ℕ) (rest : List ℚ)
    (hws : s.window_start ≠ saved) (hwt : saved + WINDOW ≤ t)
    (ht : s.time = t) (hwl : s.waiters = List.replicate n saved ++ rest) :
    Relation.ReflTransGen Step s
      { s with count := s.count + n, waiters := rest, time := t } := by
  induction n generalizing s with
  | zero =>
    have : { s with count := s.count + 0, waiters := rest, time := t } = s := by
      cases s; simp_all
    rw [this]
  | succ n ih =>
    have hmem : saved ∈ s.waiters := by
      rw [hwl]; simp [List.replicate_succ]
    have h1 : Step s (waitFinishUpd s saved t) :=
      Step.waitFinish s saved t false hmem (le_of_eq ht) (Or.inr hwt)
    have hupd : waitFinishUpd s saved t =
        { s with count := s.count + 1,
                 waiters := List.replicate n saved ++ rest, time := t } := by
      unfold waitFinishUpd
      rw [if_neg hws, if_neg hws, hwl]
      simp [List.replicate_succ, List.erase_cons]
    have h2 := ih { s with count := s.count + 1,
                           waiters := List.replicate n saved ++ rest, time := t }
      hws rfl rfl
    refine Relation.ReflTransGen.trans (Relation.ReflTransGen.single h1) ?_
    rw [hupd]
    simpa [add_assoc, Nat.add_comm 1 n] using h2

end Cfray

namespace Cfray

/-- `acquireSeq` never leaves the counter above the budget: the fast path
requires `count < BUDGET` before incrementing, and both wait paths reset
the counter to 1. -/
lemma acquireSeq_count_le (s : RL) (t1 t2 t3 tw : ℚ) :
    (acquireSeq s t1 t2 t3 tw).count ≤ BUDGET := by
  simp only [acquireSeq]
  split
  · next h => simpa [fastUpd] using h
  · split
    · simp [waitFinishUpd, waitStartUpd, BUDGET]
    · simp [staleUpd, BUDGET]

/-- Along a sequential trace the counter stays within the budget. -/
lemma runSeq_count_le (ops : List RLOp) (s : RL) (h : s.count ≤ BUDGET) :
    (runSeq s ops).count ≤ BUDGET := by
  induction ops generalizing s with
  | nil => exact h
  | cons op ops ih =>
    cases op with
    | acquire t1 t2 t3 tw => exact ih _ (acquireSeq_count_le s t1 t2 t3 tw)
    | report t ra => exact ih _ (by simpa [report429] using h)

/-- Once the window start has moved strictly past a waiter's observed
window start, it never returns there: every assignment to `window_start`
uses a fresh clock read, which is at least the current `time`. -/
def WsAbove (saved : ℚ) (s : RL) : Prop :=
  saved < s.window_start ∧ s.window_start ≤ s.time

lemma wsAbove_recheck (saved : ℚ) (s : RL) (t1 t2 : ℚ)
    (ha : saved < s.window_start) (hb : s.window_start ≤ s.time)
    (h0 : s.time ≤ t1) (h1 : t1 ≤ t2) :
    saved < (recheckBlocked s t1 t2).window_start ∧
      (recheckBlocked s t1 t2).window_start ≤ t2 := by
  unfold recheckBlocked
  split <;> exact ⟨by linarith, by linarith⟩

lemma wsAbove_init (saved : ℚ) (s : RL) (t3 : ℚ)
    (ha : saved < s.window_start) (hb : s.window_start ≤ t3) :
    saved < (windowInit s t3).window_start ∧
      (windowInit s t3).window_start ≤ t3 := by
  unfold windowInit
  split
  · next h =>
    rw [h] at ha hb
    exact ⟨lt_of_lt_of_le ha hb, le_rfl⟩
  · exact ⟨ha, hb⟩

lemma wsAbove_roll (saved : ℚ) (s : RL) (t3 : ℚ)
    (ha : saved < s.window_start) (hb : s.window_start ≤ t3) :
    saved < (windowRoll s t3).window_start ∧
      (windowRoll s t3).window_start ≤ t3 := by
  unfold windowRoll
  split
  · exact ⟨by linarith, le_rfl⟩
  · exact ⟨ha, hb⟩

lemma wsAbove_prelude (saved : ℚ) (s : RL) (t1 t2 t3 : ℚ)
    (hs : WsAbove saved s) (h0 : s.time ≤ t1) (h1 : t1 ≤ t2) (h2 : t2 ≤ t3) :
    saved < (acquirePrelude s t1 t2 t3).window_start ∧
      (acquirePrelude s t1 t2 t3).window_start ≤ t3 := by
  obtain ⟨ha, hb⟩ := hs
  have r1 := wsAbove_recheck saved s t1 t2 ha hb h0 h1
  have r2 := wsAbove_init saved (recheckBlocked s t1 t2) t3 r1.1
    (le_trans r1.2 h2)
  have r3 := wsAbove_roll saved (windowInit (recheckBlocked s t1 t2) t3) t3
    r2.1 r2.2
  exact r3

lemma step_wsAbove {saved : ℚ} {s s' : RL} (h : Step s s')
    (hs : WsAbove saved s) : WsAbove saved s' := by
  cases h with
  | fast t1 t2 t3 h0 h1 h2 hb =>
    have h' := wsAbove_prelude saved s t1 t2 t3 hs h0 h1 h2
    exact ⟨h'.1, by simpa [fastUpd] using h'.2⟩
  | stale t1 t2 t3 t4 h0 h1 h2 h3 hb hr =>
    have h' := wsAbove_prelude saved s t1 t2 t3 hs h0 h1 h2
    refine ⟨?_, by simp [staleUpd]⟩
    simp only [staleUpd]
    linarith [h'.1, h'.2]
  | waitStart t1 t2 t3 h0 h1 h2 hb hr =>
    have h' := wsAbove_prelude saved s t1 t2 t3 hs h0 h1 h2
    exact ⟨h'.1, by simpa [waitStartUpd] using h'.2⟩
  | waitFinish saved' t interrupted hmem ht hw =>
    obtain ⟨ha, hb⟩ := hs
    unfold waitFinishUpd
    refine ⟨?_, ?_⟩ <;> dsimp only <;> split <;> first
      | linarith
      | exact ha
  | report t ra ht =>
    obtain ⟨ha, hb⟩ := hs
    exact ⟨ha, by simp only [report429]; linarith⟩

lemma rtg_wsAbove {saved : ℚ} {s s' : RL}
    (h : Relation.ReflTransGen Step s s') (hs : WsAbove saved s) :
    WsAbove saved s' := by
  induction h with
  | refl => exact hs
  | tail _ hstep ih => exact step_wsAbove hstep ih

end Cfray

namespace Cfray

lemma reach_550 :
    Relation.ReflTransGen Step RL0 ⟨550, 100, 0, [], 100⟩ := by
  have hpre : acquirePrelude RL0 100 100 100 = ⟨0, 100, 0, [], 0⟩ := by
    unfold acquirePrelude recheckBlocked windowInit windowRoll RL0 WINDOW
    norm_num
  have h1 : Step RL0 ⟨1, 100, 0, [], 100⟩ := by
    have h := Step.fast RL0 100 100 100 (by norm_num [RL0]) le_rfl le_rfl
      (by rw [hpre]; norm_num [BUDGET])
    rwa [hpre] at h
  have h2 := reach_fast_n ⟨1, 100, 0, [], 100⟩ 100 549 rfl
    (by norm_num) (by norm_num [WINDOW]) rfl (by norm_num [BUDGET])
  exact Relation.ReflTransGen.trans (Relation.ReflTransGen.single h1) h2

lemma reach_waiters :
    Relation.ReflTransGen Step ⟨550, 100, 0, [], 100⟩
      ⟨550, 100, 0, List.replicate 551 100, 100⟩ := by
  have h := reach_wait_n ⟨550, 100, 0, [], 100⟩ 100 551 rfl
    (by norm_num) (by norm_num [WINDOW]) rfl (by norm_num [BUDGET])
  rw [List.append_nil] at h
  exact h

lemma reach_after_first_wake :
    Step ⟨550, 100, 0, List.replicate 551 100, 100⟩
      ⟨1, 700, 0, List.replicate 550 100, 700⟩ := by
  have h := Step.waitFinish ⟨550, 100, 0, List.replicate 551 100, 100⟩
    100 700 false (by rw [List.mem_replicate]; exact ⟨by norm_num, rfl⟩)
    (by norm_num) (Or.inr (by norm_num [WINDOW]))
  have heq : waitFinishUpd ⟨550, 100, 0, List.replicate 551 100, 100⟩ 100 700 =
      ⟨1, 700, 0, List.replicate 550 100, 700⟩ := by
    unfold waitFinishUpd
    rw [show (551 : ℕ) = 550 + 1 from rfl, List.replicate_succ,
      List.erase_cons_head]
    norm_num
  rwa [heq] at h

lemma reach_551 : Reach ⟨551, 700, 0, [], 700⟩ := by
  have h5 := reach_finish_stale_n ⟨1, 700, 0, List.replicate 550 100, 700⟩
    100 700 550 [] (by norm_num) (by norm_num [WINDOW]) rfl
    (List.append_nil _).symm
  refine Relation.ReflTransGen.trans reach_550 ?_
  refine Relation.ReflTransGen.trans reach_waiters ?_
  refine Relation.ReflTransGen.trans
    (Relation.ReflTransGen.single reach_after_first_wake) ?_
  exact h5

/-- C1, counterexample.  The claimed invariant `count ≤ BUDGET` whenever
`now - window_start < WINDOW` and `now ≥ blocked_until` fails on an
interleaved trace of `acquire` calls: 550 acquires fill the window; 551
further acquires park in the budget wait, all observing
`saved_window = 100`; after the window elapses the first waiter resets the
window (`count := 1, window_start := 700`), and each remaining stale waiter
finds `window_start ≠ saved_window`, skips the reset, **and increments the
counter without re-checking the budget** — reaching `count = 551 > 550`
inside the fresh window (`now = 700`, `now - window_start = 0 < 600`,
`blocked_until = 0 ≤ now`). -/
theorem rl_budget_interleaved_ctrex :
    Reach ⟨551, 700, 0, [], 700⟩ ∧ BUDGET < 551 ∧
      (700 : ℚ) - 700 < WINDOW ∧ (0 : ℚ) ≤ 700 :=
  ⟨reach_551, by norm_num [BUDGET], by norm_num [WINDOW], by norm_num⟩

/-- C1, amended.  (a) For **sequential** (non-overlapping) sequences of
`acquire`/`report_429` calls the counter invariant does hold: `count ≤
BUDGET` at every moment, in particular whenever `now - window_start <
WINDOW` and `now ≥ blocked_until`.  (b) The multiply-reset protection is
real: once a (non-interrupted) budget waiter that still observes its saved
window start performs the reset, the window start moves strictly past the
saved value and never returns, so no later waiter parked on the same saved
window start can reset the counter again. -/
theorem rl_budget_seq_and_single_reset :
    (∀ (ops : List RLOp) (now : ℚ),
        now - (runSeq RL0 ops).window_start < WINDOW →
        (runSeq RL0 ops).blocked_until ≤ now →
        (runSeq RL0 ops).count ≤ BUDGET) ∧
    (∀ (s1 : RL) (saved t : ℚ), s1.window_start = saved →
        saved + WINDOW ≤ t →
        ∀ s2, Relation.ReflTransGen Step (waitFinishUpd s1 saved t) s2 →
          s2.window_start ≠ saved) := by
  constructor
  · intro ops now _ _
    exact runSeq_count_le ops RL0 (by norm_num [RL0, BUDGET])
  · intro s1 saved t hws hwt s2 hrtg
    have hstart : WsAbove saved (waitFinishUpd s1 saved t) := by
      constructor
      · unfold waitFinishUpd; dsimp only; rw [if_pos hws]
        unfold WINDOW at hwt; linarith
      · unfold waitFinishUpd; dsimp only; rw [if_pos hws]
    have h := rtg_wsAbove hrtg hstart
    exact ne_of_gt h.1

/-- Closed witness for `rl_budget_seq_and_single_reset`. -/
theorem rl_budget_seq_and_single_reset_witness :
    (runSeq RL0 [RLOp.acquire 1 1 1 1]).count ≤ BUDGET ∧
      (waitFinishUpd ⟨550, 100, 0, [100], 100⟩ 100 700).window_start ≠ 100 := by
  constructor
  · exact rl_budget_seq_and_single_reset.1 [RLOp.acquire 1 1 1 1] 2
      (by norm_num [runSeq, acquireSeq, acquirePrelude, recheckBlocked,
        windowInit, windowRoll, fastUpd, RL0, WINDOW, BUDGET])
      (by norm_num [runSeq, acquireSeq, acquirePrelude, recheckBlocked,
        windowInit, windowRoll, fastUpd, RL0, WINDOW, BUDGET])
  · exact rl_budget_seq_and_single_reset.2 ⟨550, 100, 0, [100], 100⟩ 100 700
      rfl (by norm_num [WINDOW]) _ Relation.ReflTransGen.refl

/-- C2: `report_429(retry_after)` clamps the retry-after value to
`[30, 600]` seconds and sets `blocked_until` to the maximum of its old
value and `now + clamped`; hence a 429 never shrinks an existing longer
block, `retry_after = 3600` yields `blocked_until = now + 600`, and
`retry_after = 5` yields `blocked_until = now + 30`. -/
theorem report429_clamp (s : RL) (t : ℚ) (retry_after : ℤ) :
    (report429 s t retry_after).blocked_until =
      max s.blocked_until (t + ((min (max retry_after 30) 600 : ℤ) : ℚ)) ∧
    (30 : ℤ) ≤ min (max retry_after 30) 600 ∧
    min (max retry_after 30) 600 ≤ (600 : ℤ) ∧
    s.blocked_until ≤ (report429 s t retry_after).blocked_until ∧
    (s.blocked_until ≤ t + 600 →
      (report429 s t 3600).blocked_until = t + 600) ∧
    (s.blocked_until ≤ t + 30 →
      (report429 s t 5).blocked_until = t + 30) := by
  refine ⟨rfl, ?_, ?_, ?_, ?_, ?_⟩
  · simp only [le_min_iff]
    exact ⟨le_max_right _ _, by norm_num⟩
  · exact min_le_right _ _
  · exact le_max_left _ _
  · intro h
    simp only [report429]
    norm_num
    exact h
  · intro h
    simp only [report429]
    norm_num
    exact h

/-- Closed witness for `report429_clamp`. -/
theorem report429_clamp_witness :
    (report429 RL0 0 3600).blocked_until = 600 ∧
      (report429 RL0 0 5).blocked_until = 30 := by
  have h := report429_clamp RL0 0 0
  constructor
  · have := h.2.2.2.2.1 (by norm_num [RL0])
    simpa using this
  · have := h.2.2.2.2.2 (by norm_num [RL0])
    simpa using this

end Cfray

namespace Cfray

/-! ### Scoring (`_xray_calc_scores`, scanner.py lines 2384-2400) -/

/-- The measurement fields of one `XrayVariation` consumed by
`_xray_calc_scores`. -/
structure XrayVariation where
  alive : Bool
  connect_ms : ℚ
  ttfb_ms : ℚ
  speed_mbps : ℚ
  native_tested : Bool
  deriving Repr, DecidableEq

/-- Python `round(x, 1)`: round to one decimal, ties to even (modelling the
float as an exact rational). -/
def round1 (x : ℚ) : ℚ :=
  let n : ℤ := ⌊x * 10⌋
  let r : ℚ := x * 10 - n
  let k : ℤ :=
    if r < 1/2 then n
    else if 1/2 < r then n + 1
    else if n % 2 = 0 then n else n + 1
  (k : ℚ) / 10

/-- The per-variation body of `_xray_calc_scores`:
`cms = connect_ms if connect_ms >= 0 else 1000` (same for `tms`),
`lat = max(0.0, 100.0 - cms / 10.0)`, `ttfb = max(0.0, 100.0 - tms / 5.0)`;
the 0.55/0.45 latency-only formula applies when `native_tested or
speed_mbps < 0.01`, the 0.35/0.50/0.15 formula otherwise; dead variations
score 0. -/
def xray_calc_score (v : XrayVariation) : ℚ :=
  if v.alive = false then 0
  else
    let cms := if 0 ≤ v.connect_ms then v.connect_ms else 1000
    let tms := if 0 ≤ v.ttfb_ms then v.ttfb_ms else 1000
    let lat := max 0 (100 - cms / 10)
    let ttfb := max 0 (100 - tms / 5)
    if v.native_tested = true ∨ v.speed_mbps < 1/100 then
      round1 (lat * (55/100) + ttfb * (45/100))
    else
      let spd := min 100 (v.speed_mbps * 20)
      round1 (lat * (35/100) + spd * (50/100) + ttfb * (15/100))

/-- `clamp(x, lo, hi)` as written in the specification's scoring formulas. -/
def clampQ (x lo hi : ℚ) : ℚ := min hi (max lo x)

/-- The claimed score, written exactly as the claim states it:
`lat_score = clamp(100 - connect_ms/10, 0, 100)`, zero when
`connect_ms ≤ 0`; non-native variations score
`0.35·lat + 0.50·spd + 0.15·ttfb` with `spd = min(mbps × 20, 100)`; native
ones score `0.55·lat + 0.45·ttfb`; dead ones score 0. -/
def score_per_claim (v : XrayVariation) : ℚ :=
  if v.alive = false then 0
  else
    let lat := if v.connect_ms ≤ 0 then 0 else clampQ (100 - v.connect_ms / 10) 0 100
    let ttfb := if v.ttfb_ms ≤ 0 then 0 else clampQ (100 - v.ttfb_ms / 5) 0 100
    let spd := min (v.speed_mbps * 20) 100
    if v.native_tested then (55/100) * lat + (45/100) * ttfb
    else (35/100) * lat + (50/100) * spd + (15/100) * ttfb

lemma max_eq_clamp (x : ℚ) (h : x ≤ 100) : max 0 x = clampQ x 0 100 := by
  unfold clampQ
  rw [min_eq_right]
  exact max_le (by norm_num) h

/-- C7, counterexample.  At `connect_ms = 0` the code substitutes nothing
(the `else 1000` branch needs `connect_ms < 0`), so `lat = max(0, 100 - 0)
= 100` and an alive native variation with hopeless TTFB scores 55.0, while
the claim (`lat_score = 0 when connect_ms ≤ 0`) predicts 0. -/
theorem xray_score_ctrex :
    xray_calc_score ⟨true, 0, 1000, 0, true⟩ = 55 ∧
      score_per_claim ⟨true, 0, 1000, 0, true⟩ = 0 ∧ (55 : ℚ) ≠ 0 := by
  refine ⟨?_, ?_, by norm_num⟩
  · unfold xray_calc_score round1
    norm_num
  · unfold score_per_claim clampQ
    norm_num

/-- C7, amended.  Dead variations score 0.  For alive variations the code
computes `lat_score = clamp(100 - connect_ms/10, 0, 100)` except that a
**negative** `connect_ms` is first replaced by 1000 (so `lat_score = 0` for
`connect_ms < 0` but `lat_score = 100` at `connect_ms = 0`; same for
`ttfb_ms` with divisor 5); the 0.55·lat + 0.45·ttfb formula applies when
the variation was native-tested **or** its measured speed is below
0.01 mbps; the 0.35·lat + 0.50·spd + 0.15·ttfb formula (with
`spd = min(mbps × 20, 100)`) applies to the remaining speed-measured
variations; every score is rounded to one decimal. -/
theorem xray_calc_scores_amended (v : XrayVariation) :
    (v.alive = false → xray_calc_score v = 0) ∧
    (v.alive = true →
      xray_calc_score v =
        (let lat := if v.connect_ms < 0 then 0
           else clampQ (100 - v.connect_ms / 10) 0 100
         let ttfb := if v.ttfb_ms < 0 then 0
           else clampQ (100 - v.ttfb_ms / 5) 0 100
         if v.native_tested = true ∨ v.speed_mbps < 1/100 then
           round1 ((55/100) * lat + (45/100) * ttfb)
         else
           round1 ((35/100) * lat + (50/100) * min (v.speed_mbps * 20) 100
             + (15/100) * ttfb))) := by
  constructor
  · intro h
    unfold xray_calc_score
    rw [if_pos h]
  · intro h
    unfold xray_calc_score
    rw [if_neg (by simp [h])]
    have hlat : max 0 (100 - (if 0 ≤ v.connect_ms then v.connect_ms else 1000) / 10)
        = (if v.connect_ms < 0 then 0 else clampQ (100 - v.connect_ms / 10) 0 100) := by
      by_cases hc : 0 ≤ v.connect_ms
      · rw [if_pos hc, if_neg (not_lt.2 hc), max_eq_clamp]
        have : 0 ≤ v.connect_ms / 10 := by positivity
        linarith
      · rw [if_neg hc, if_pos (lt_of_not_le hc)]
        norm_num
    have httfb : max 0 (100 - (if 0 ≤ v.ttfb_ms then v.ttfb_ms else 1000) / 5)
        = (if v.ttfb_ms < 0 then 0 else clampQ (100 - v.ttfb_ms / 5) 0 100) := by
      by_cases hc : 0 ≤ v.ttfb_ms
      · rw [if_pos hc, if_neg (not_lt.2 hc), max_eq_clamp]
        have : 0 ≤ v.ttfb_ms / 5 := by positivity
        linarith
      · rw [if_neg hc, if_pos (lt_of_not_le hc)]
        norm_num
    simp only [hlat, httfb]
    split
    · ring_nf
    · rw [min_comm]
      ring_nf

/-- Closed witness for `xray_calc_scores_amended`. -/
theorem xray_calc_scores_amended_witness :
    xray_calc_score ⟨true, 100, 50, 2, false⟩ =
      round1 ((35/100) * clampQ (100 - (100:ℚ) / 10) 0 100
        + (50/100) * min ((2:ℚ) * 20) 100
        + (15/100) * clampQ (100 - (50:ℚ) / 5) 0 100) := by
  have h := (xray_calc_scores_amended ⟨true, 100, 50, 2, false⟩).2 rfl
  rw [h]
  norm_num

end Cfray

namespace Cfray

/-! ### Elimination funnel rounds (`PRESETS`, `build_dynamic_rounds`,
latency cut of `run_scan`; scanner.py lines 225-262, 831-860, 8245-8262) -/

structure RoundCfg where
  size : ℕ
  keep : ℕ
  deriving Repr, DecidableEq

/-- The fields of one `PRESETS` entry that the funnel consumes. -/
structure Preset where
  dynamic : Bool
  latency_cut : ℕ
  round_sizes : List ℕ
  round_pcts : List ℕ
  round_min : List ℕ
  round_max : List ℕ
  deriving Repr, DecidableEq

def presetQuick : Preset :=
  ⟨true, 50, [1000000, 5000000], [100, 20], [50, 10], [100, 20]⟩

def presetNormal : Preset :=
  ⟨true, 40, [1000000, 5000000, 20000000], [100, 25, 10], [50, 20, 10],
    [200, 50, 20]⟩

def presetThorough : Preset :=
  ⟨true, 15, [5000000, 25000000, 50000000], [100, 25, 10], [0, 30, 15],
    [0, 150, 50]⟩

/-- `PRESETS.get(mode, PRESETS["normal"])`. -/
def PRESETS_get (mode : String) : Preset :=
  if mode = "quick" then presetQuick
  else if mode = "normal" then presetNormal
  else if mode = "thorough" then presetThorough
  else presetNormal

/-- Python `zip` over four lists (stops at the shortest). -/
def zip4 {α β γ δ : Type} : List α → List β → List γ → List δ →
    List (α × β × γ × δ)
  | a :: as, b :: bs, c :: cs, d :: ds => (a, b, c, d) :: zip4 as bs cs ds
  | _, _, _, _ => []

/-- `build_dynamic_rounds(mode, alive_count)`.  `int(alive_count * pct /
100)` on non-negative ints is floor division, i.e. `ℕ` division. -/
def build_dynamic_rounds (mode : String) (alive_count : ℕ) : List RoundCfg :=
  let preset := PRESETS_get mode
  if preset.dynamic = false then [⟨1000000, alive_count⟩]
  else
    let small_set := alive_count ≤ 50
    (zip4 preset.round_sizes preset.round_pcts preset.round_min
        preset.round_max).filterMap
      (fun r =>
        let keep0 :=
          if small_set then alive_count
          else
            let k1 := if r.2.1 < 100 then alive_count * r.2.1 / 100
              else alive_count
            let k2 := if 0 < r.2.2.1 then max r.2.2.1 k1 else k1
            if 0 < r.2.2.2 then min r.2.2.2 k2 else k2
        let keep := min keep0 alive_count
        if 0 < keep then some ⟨r.1, keep⟩ else none)

/-- The latency cut of `run_scan`:
`cut_n = max(1, int(len(alive) * cut_pct / 100)); alive = alive[:-cut_n]`,
applied when `cut_pct > 0 and len(alive) > 50`. -/
def latency_cut_survivors (mode : String) (alive : ℕ) : ℕ :=
  let cut_pct := (PRESETS_get mode).latency_cut
  if 0 < cut_pct ∧ 50 < alive then alive - max 1 (alive * cut_pct / 100)
  else alive

/-- `clamp(x, mn, mx)` on naturals, as the claim writes it. -/
def clampN (x mn mx : ℕ) : ℕ := min mx (max mn x)

lemma PRESETS_get_dynamic (mode : String) : (PRESETS_get mode).dynamic = true := by
  unfold PRESETS_get
  split_ifs <;> rfl

/-- C8: with more than 50 alive IPs, round `k` of the funnel keeps
`clamp(int(len × pct_k/100), min_k, max_k)` candidates whenever
`max_k > 0` (and the preset row is meaningful: `pct_k ≤ 100`,
`min_k ≤ len`, `len × pct_k ≥ 100`); concretely, in mode `normal` with
300 alive IPs the 40% latency cut leaves 180 IPs entering round 1, the
next round keeps `clamp(45, 20, 50) = 45`, and the round after keeps
`clamp(18, 10, 20) = 18`. -/
theorem funnel_round_keeps (mode : String) (alive sz pct mn mx : ℕ)
    (halive : 50 < alive)
    (hrow : (sz, pct, mn, mx) ∈ zip4 (PRESETS_get mode).round_sizes
      (PRESETS_get mode).round_pcts (PRESETS_get mode).round_min
      (PRESETS_get mode).round_max)
    (hmx : 0 < mx) (hmn : mn ≤ alive) (hpct : pct ≤ 100)
    (hnz : 100 ≤ alive * pct) :
    RoundCfg.mk sz (clampN (alive * pct / 100) mn mx) ∈
        build_dynamic_rounds mode alive ∧
      latency_cut_survivors "normal" 300 = 180 ∧
      build_dynamic_rounds "normal" 180 =
        [⟨1000000, 180⟩, ⟨5000000, 45⟩, ⟨20000000, 18⟩] := by
  refine ⟨?_, by decide, by decide⟩
  unfold build_dynamic_rounds
  rw [if_neg (by rw [PRESETS_get_dynamic]; exact fun hcon => by cases hcon)]
  rw [List.mem_filterMap]
  refine ⟨(sz, pct, mn, mx), hrow, ?_⟩
  have hx_le : alive * pct / 100 ≤ alive := by
    calc alive * pct / 100 ≤ alive * 100 / 100 :=
      Nat.div_le_div_right (Nat.mul_le_mul_left alive hpct)
    _ = alive := Nat.mul_div_cancel alive (by norm_num)
  have hsmall : ¬ alive ≤ 50 := not_le.2 halive
  have hk1 : (if pct < 100 then alive * pct / 100 else alive)
      = alive * pct / 100 := by
    by_cases hp : pct < 100
    · rw [if_pos hp]
    · have : pct = 100 := le_antisymm hpct (not_lt.1 hp)
      rw [if_neg hp, this, Nat.mul_div_cancel alive (by norm_num)]
  have hk2 : (if 0 < mn then max mn (alive * pct / 100)
      else alive * pct / 100) = max mn (alive * pct / 100) := by
    by_cases hm : 0 < mn
    · rw [if_pos hm]
    · rw [if_neg hm, Nat.eq_zero_of_not_pos hm, max_eq_right (Nat.zero_le _)]
  have hkeep_le : min mx (max mn (alive * pct / 100)) ≤ alive :=
    le_trans (min_le_right _ _) (max_le hmn hx_le)
  have hkeep_pos : 0 < min mx (max mn (alive * pct / 100)) := by
    refine lt_min hmx (lt_of_lt_of_le ?_ (le_max_right _ _))
    exact Nat.one_le_div_iff (by norm_num) |>.2 hnz
  simp only [if_neg hsmall, hk1, hk2, if_pos hmx]
  rw [min_eq_left hkeep_le, if_pos hkeep_pos]
  rfl

/-- Closed witness for `funnel_round_keeps`. -/
theorem funnel_round_keeps_witness :
    RoundCfg.mk 5000000 (clampN (180 * 25 / 100) 20 50) ∈
      build_dynamic_rounds "normal" 180 := by
  have h := funnel_round_keeps "normal" 180 5000000 25 20 50
    (by norm_num) (by decide) (by norm_num) (by norm_num) (by norm_num)
    (by norm_num)
  exact h.1

end Cfray

namespace Cfray

/-! ### Address expander (`expand_custom_ips`, scanner.py lines 2324-2379)

The string-level parse (`ipaddress.IPv4Address` / `IPv4Network`) is
abstracted: each already-split input token is either a valid single
address, a valid CIDR (carrying the `net.hosts()` expansion), or invalid
(skipped by the `except ValueError: continue`).  Addresses are 32-bit
naturals.  The Python code keeps a `seen` set exactly mirroring the
membership of `result`; the model tests membership of `result` directly. -/

inductive IPEntry
  | ip (a : ℕ)
  | cidr (hosts : List ℕ)
  | invalid
  deriving Repr, DecidableEq

/-- `MAX_IPS = 6666`. -/
def MAX_IPS : ℕ := 6666

/-- The candidate addresses an entry contributes, in source order. -/
def entryCandidates : IPEntry → List ℕ
  | .ip a => [a]
  | .cidr hosts => hosts
  | .invalid => []

/-- The inner CIDR loop: `for host in net.hosts(): if len(result) >=
MAX_IPS: break; if s not in seen: seen.add(s); result.append(s)`. -/
def addHosts (hosts : List ℕ) (result : List ℕ) : List ℕ :=
  match hosts with
  | [] => result
  | h :: hs =>
    if MAX_IPS ≤ result.length then result
    else if h ∈ result then addHosts hs result
    else addHosts hs (result ++ [h])

/-- The outer loop of `expand_custom_ips` over parsed entries, with the
`if len(result) >= MAX_IPS: break` at the bottom of each iteration. -/
def expandEntries (entries : List IPEntry) (result : List ℕ) : List ℕ :=
  match entries with
  | [] => result
  | e :: es =>
    let result' :=
      match e with
      | .ip a => if a ∈ result then result else result ++ [a]
      | .cidr hosts => addHosts hosts result
      | .invalid => result
    if MAX_IPS ≤ result'.length then result' else expandEntries es result'

/-- `expand_custom_ips` restricted to its pure core (file reading and
comma/newline splitting produce `entries`). -/
def expand_custom_ips (entries : List IPEntry) : List ℕ :=
  expandEntries entries []

/-- Reference first-seen deduplication: fold the input, appending each
element not seen before. -/
def dedupAcc (acc : List ℕ) : List ℕ → List ℕ
  | [] => acc
  | x :: xs => dedupAcc (if x ∈ acc then acc else acc ++ [x]) xs

lemma dedupAcc_append (acc : List ℕ) (xs ys : List ℕ) :
    dedupAcc acc (xs ++ ys) = dedupAcc (dedupAcc acc xs) ys := by
  induction xs generalizing acc with
  | nil => rfl
  | cons x xs ih =>
    simp only [List.cons_append, dedupAcc]
    exact ih _

lemma dedupAcc_prefix (acc : List ℕ) (l : List ℕ) :
    ∃ t, dedupAcc acc l = acc ++ t := by
  induction l generalizing acc with
  | nil => exact ⟨[], by simp [dedupAcc]⟩
  | cons x xs ih =>
    by_cases hx : x ∈ acc
    · obtain ⟨t, ht⟩ := ih acc
      exact ⟨t, by simp only [dedupAcc, if_pos hx, ht]⟩
    · obtain ⟨t, ht⟩ := ih (acc ++ [x])
      exact ⟨[x] ++ t, by simp only [dedupAcc, if_neg hx, ht, List.append_assoc]⟩

lemma dedupAcc_nodup (acc : List ℕ) (l : List ℕ) (h : acc.Nodup) :
    (dedupAcc acc l).Nodup := by
  induction l generalizing acc with
  | nil => exact h
  | cons x xs ih =>
    by_cases hx : x ∈ acc
    · simpa only [dedupAcc, if_pos hx] using ih acc h
    · have h' : (acc ++ [x]).Nodup := by
        simp [List.nodup_append, h, hx]
      simpa only [dedupAcc, if_neg hx] using ih (acc ++ [x]) h'

lemma addHosts_eq (hosts result : List ℕ) (h : result.length ≤ MAX_IPS) :
    addHosts hosts result = (dedupAcc result hosts).take MAX_IPS := by
  induction hosts generalizing result with
  | nil =>
    simp only [addHosts, dedupAcc]
    exact (List.take_of_length_le h).symm
  | cons x xs ih =>
    by_cases hcap : MAX_IPS ≤ result.length
    · have hlen : result.length = MAX_IPS := le_antisymm h hcap
      simp only [addHosts, if_pos hcap]
      obtain ⟨t, ht⟩ := dedupAcc_prefix result (x :: xs)
      rw [ht, List.take_append_eq_append_take, hlen]
      simp [List.take_of_length_le (le_of_eq hlen)]
    · have hlt : result.length < MAX_IPS := lt_of_not_le hcap
      by_cases hx : x ∈ result
      · simp only [addHosts, if_neg hcap, if_pos hx, dedupAcc]
        exact ih result h
      · simp only [addHosts, if_neg hcap, if_neg hx, dedupAcc]
        exact ih (result ++ [x]) (by simpa using hlt)

lemma expandEntries_eq (entries : List IPEntry) (result : List ℕ)
    (h : result.length < MAX_IPS) :
    expandEntries entries result =
      (dedupAcc result (List.flatten (entries.map entryCandidates))).take
        MAX_IPS := by
  induction entries generalizing result with
  | nil =>
    simp only [expandEntries, List.map_nil, List.flatten_nil, dedupAcc]
    exact (List.take_of_length_le (le_of_lt h)).symm
  | cons e es ih =>
    have key : ∀ result' : List ℕ,
        result' = (dedupAcc result (entryCandidates e)).take MAX_IPS →
        (if MAX_IPS ≤ result'.length then result'
          else expandEntries es result') =
          (dedupAcc result
            (List.flatten ((e :: es).map entryCandidates))).take MAX_IPS := by
      intro result' hres
      have hflat : List.flatten ((e :: es).map entryCandidates)
          = entryCandidates e ++ List.flatten (es.map entryCandidates) := by
        simp
      rw [hflat, dedupAcc_append]
      by_cases hcap : MAX_IPS ≤ result'.length
      · rw [if_pos hcap]
        -- the cap was reached: the take-truncation already cut at MAX_IPS
        have hDlen : MAX_IPS ≤ (dedupAcc result (entryCandidates e)).length := by
          have h1 : result'.length =
              min MAX_IPS (dedupAcc result (entryCandidates e)).length := by
            rw [hres, List.length_take]
          rw [h1] at hcap
          exact le_trans hcap (min_le_right _ _)
        obtain ⟨t, ht⟩ := dedupAcc_prefix (dedupAcc result (entryCandidates e))
          (List.flatten (es.map entryCandidates))
        rw [ht, List.take_append_eq_append_take,
          Nat.sub_eq_zero_of_le hDlen, List.take_zero, List.append_nil, hres]
      · rw [if_neg hcap]
        have hlt : result'.length < MAX_IPS := lt_of_not_le hcap
        have hD_eq : result' = dedupAcc result (entryCandidates e) := by
          by_cases hDlen : (dedupAcc result (entryCandidates e)).length ≤ MAX_IPS
          · rw [hres]
            exact List.take_of_length_le hDlen
          · exfalso
            have h1 : result'.length = MAX_IPS := by
              rw [hres, List.length_take]
              exact min_eq_left (le_of_lt (lt_of_not_le hDlen))
            exact hcap (le_of_eq h1.symm)
        rw [← hD_eq, ih result' hlt]
    cases e with
    | ip a =>
      have hlen : (if a ∈ result then result else result ++ [a]).length
          ≤ MAX_IPS := by
        by_cases ha : a ∈ result
        · rw [if_pos ha]; exact le_of_lt h
        · rw [if_neg ha]; simpa using h
      have hres : (if a ∈ result then result else result ++ [a])
          = (dedupAcc result (entryCandidates (IPEntry.ip a))).take MAX_IPS := by
        have hD : dedupAcc result (entryCandidates (IPEntry.ip a))
            = if a ∈ result then result else result ++ [a] := rfl
        rw [hD]
        exact (List.take_of_length_le hlen).symm
      exact key _ hres
    | cidr hosts =>
      exact key _ (addHosts_eq hosts result (le_of_lt h))
    | invalid =>
      have hres : result
          = (dedupAcc result (entryCandidates IPEntry.invalid)).take MAX_IPS := by
        have hD : dedupAcc result (entryCandidates IPEntry.invalid) = result := rfl
        rw [hD]
        exact (List.take_of_length_le (le_of_lt h)).symm
      exact key _ hres

/-- C9: the address expander deduplicates (no duplicate IP in the output),
preserves first-seen order — the output is exactly the canonical
first-seen deduplication of all candidate addresses, truncated at the cap —
and never returns more than 6,666 addresses. -/
theorem expand_custom_ips_spec (entries : List IPEntry) :
    expand_custom_ips entries =
      (dedupAcc [] (List.flatten (entries.map entryCandidates))).take MAX_IPS ∧
    (expand_custom_ips entries).Nodup ∧
    (expand_custom_ips entries).length ≤ 6666 := by
  have heq := expandEntries_eq entries [] (by norm_num [MAX_IPS])
  refine ⟨heq, ?_, ?_⟩
  · rw [expand_custom_ips, heq]
    exact (List.take_sublist _ _).nodup
      (dedupAcc_nodup [] _ List.nodup_nil)
  · rw [expand_custom_ips, heq]
    refine le_trans ?_ (by norm_num [MAX_IPS] :
      MAX_IPS ≤ 6666)
    simpa using List.length_take_le _ _

end Cfray

namespace Cfray

/-! ### Clean-IP scan results (`scan_clean_ips`, scanner.py lines 3316-3378)
and pipeline IP-scan deduplication (`xray_pipeline_test`, lines 2817-2830)

The network probe is abstracted as a function `(ip, port) ↦ (latency,
is_cf)`; `probes` is the (already shuffled) flat list of `(ip, port)`
pairs.  Completion order of the workers is non-deterministic, but the
final `results.sort(key=lambda x: x[1])` makes the output of
`scan_clean_ips` depend only on the multiset of successes; the model
collects successes in probe order and applies the same stable ascending
sort by latency. -/

/-- `addr = ip if port == 443 else f"{ip}:{port}"`. -/
def addrLabel (ip : String) (port : ℕ) : String :=
  if port = 443 then ip else ip ++ ":" ++ toString port

/-- Stable insertion of one element into a latency-sorted list. -/
def insertSorted (x : String × ℚ) : List (String × ℚ) → List (String × ℚ)
  | [] => [x]
  | y :: ys => if x.2 ≤ y.2 then x :: y :: ys else y :: insertSorted x ys

/-- Python's stable ascending `sort(key=lambda x: x[1])`. -/
def sortByLat (l : List (String × ℚ)) : List (String × ℚ) :=
  l.foldr insertSorted []

/-- The pure core of `scan_clean_ips`: every probe with `lat > 0 and
is_cf` appends `(addr, lat)`; the result list is sorted by latency. -/
def scan_clean_ips (probes : List (String × ℕ))
    (probeFn : String → ℕ → ℚ × Bool) : List (String × ℚ) :=
  sortByLat (probes.filterMap (fun p =>
    let r := probeFn p.1 p.2
    if 0 < r.1 ∧ r.2 = true then some (addrLabel p.1 p.2, r.1) else none))

/-- Association-list lookup (Python `dict` access; dicts preserve
insertion order). -/
def alookup {α : Type} (d : List (String × α)) (k : String) : Option α :=
  match d with
  | [] => none
  | kv :: rest => if kv.1 = k then some kv.2 else alookup rest k

/-- `if ip not in _ip_best or lat < _ip_best[ip]: _ip_best[ip] = lat` —
a new key is appended, an existing key is updated in place. -/
def bestUpdate (d : List (String × ℚ)) (ip : String) (lat : ℚ) :
    List (String × ℚ) :=
  match alookup d ip with
  | none => d ++ [(ip, lat)]
  | some cur =>
    if lat < cur then d.map (fun kv => if kv.1 = ip then (ip, lat) else kv)
    else d

/-- `if ip not in live_ip_ports: live_ip_ports[ip] = []` followed by
`if port not in live_ip_ports[ip]: live_ip_ports[ip].append(port)`. -/
def portsUpdate (d : List (String × List ℕ)) (ip : String) (port : ℕ) :
    List (String × List ℕ) :=
  match alookup d ip with
  | none => d ++ [(ip, [port])]
  | some ps =>
    if port ∈ ps then d
    else d.map (fun kv => if kv.1 = ip then (ip, ps ++ [port]) else kv)

/-- The deduplication block of `xray_pipeline_test`: walk the gathered
probe results (skipping `None`), keep the best latency per IP in
`_ip_best` and the first-seen ports per IP in `live_ip_ports`; finally
`live_ips = sorted(_ip_best.items(), key=lambda x: x[1])`.  The single
Python pass updates the two dicts independently, so it equals two folds. -/
def pipeline_dedup (results : List (Option (String × ℕ × ℚ))) :
    List (String × ℚ) × List (String × List ℕ) :=
  let rs := results.filterMap id
  let best := rs.foldl (fun d r => bestUpdate d r.1 r.2.2) []
  let ports := rs.foldl (fun d r => portsUpdate d r.1 r.2.1) []
  (sortByLat best, ports)

/-- The successful latencies of one IP, in arrival order. -/
def latList (ip : String) (results : List (Option (String × ℕ × ℚ))) :
    List ℚ :=
  (results.filterMap id).filterMap
    (fun r => if r.1 = ip then some r.2.2 else none)

/-- The successful ports of one IP, in arrival order. -/
def portList (ip : String) (results : List (Option (String × ℕ × ℚ))) :
    List ℕ :=
  (results.filterMap id).filterMap
    (fun r => if r.1 = ip then some r.2.1 else none)

/-- Minimum of a latency list (`none` on the empty list). -/
def listMin (l : List ℚ) : Option ℚ :=
  l.foldl (fun acc x =>
    match acc with
    | none => some x
    | some m => some (min m x)) none

end Cfray

namespace Cfray

lemma alookup_append {α : Type} (d e : List (String × α)) (k : String) :
    alookup (d ++ e) k =
      match alookup d k with
      | none => alookup e k
      | some v => some v := by
  induction d with
  | nil => rfl
  | cons kv rest ih =>
    simp only [List.cons_append, alookup, List.append_eq]
    by_cases h : kv.1 = k
    · rw [if_pos h, if_pos h]
    · rw [if_neg h, if_neg h, ih]

lemma alookup_map_set {α : Type} (d : List (String × α)) (ip : String)
    (v : α) (k : String) :
    alookup (d.map (fun kv => if kv.1 = ip then (ip, v) else kv)) k
      = (alookup d k).map (fun w => if k = ip then v else w) := by
  induction d with
  | nil => rfl
  | cons kv rest ih =>
    simp only [List.map_cons, alookup]
    by_cases h1 : kv.1 = ip
    · rw [if_pos h1]
      by_cases h2 : ip = k
      · subst h2
        rw [if_pos rfl, if_pos h1, Option.map_some']
        simp
      · have : ¬ kv.1 = k := by rw [h1]; exact h2
        simp only [if_pos rfl]
        rw [if_neg h2, if_neg this, ih]
    · rw [if_neg h1]
      by_cases h2 : kv.1 = k
      · rw [if_pos h2, if_pos h2, Option.map_some']
        have : ¬ k = ip := by rw [← h2]; exact h1
        rw [if_neg this]
      · rw [if_neg h2, if_neg h2, ih]

lemma alookup_bestUpdate (d : List (String × ℚ)) (ip : String) (lat : ℚ)
    (k : String) :
    alookup (bestUpdate d ip lat) k =
      if k = ip then
        some (match alookup d ip with
          | none => lat
          | some cur => min cur lat)
      else alookup d k := by
  unfold bestUpdate
  cases h : alookup d ip with
  | none =>
    rw [alookup_append]
    by_cases hk : k = ip
    · subst hk
      rw [h, if_pos rfl]
      simp [alookup]
    · rw [if_neg hk]
      cases h2 : alookup d k with
      | none =>
        have : ¬ (ip = k) := fun hc => hk hc.symm
        simp [alookup, this]
      | some v => rfl
  | some cur =>
    dsimp only
    by_cases hl : lat < cur
    · rw [if_pos hl, alookup_map_set]
      by_cases hk : k = ip
      · subst hk
        rw [h, if_pos rfl]
        simp [min_eq_right (le_of_lt hl)]
      · rw [if_neg hk]
        cases alookup d k with
        | none => rfl
        | some v => rw [Option.map_some', if_neg hk]
    · rw [if_neg hl]
      by_cases hk : k = ip
      · subst hk
        rw [h, if_pos rfl, min_eq_left (not_lt.1 hl)]
      · rw [if_neg hk]

lemma alookup_portsUpdate (d : List (String × List ℕ)) (ip : String)
    (port : ℕ) (k : String) :
    alookup (portsUpdate d ip port) k =
      if k = ip then
        some (match alookup d ip with
          | none => [port]
          | some ps => if port ∈ ps then ps else ps ++ [port])
      else alookup d k := by
  unfold portsUpdate
  cases h : alookup d ip with
  | none =>
    rw [alookup_append]
    by_cases hk : k = ip
    · subst hk
      rw [h, if_pos rfl]
      simp [alookup]
    · rw [if_neg hk]
      cases h2 : alookup d k with
      | none =>
        have : ¬ (ip = k) := fun hc => hk hc.symm
        simp [alookup, this]
      | some v => rfl
  | some ps =>
    dsimp only
    by_cases hp : port ∈ ps
    · rw [if_pos hp]
      by_cases hk : k = ip
      · subst hk
        rw [h, if_pos rfl, if_pos hp]
      · rw [if_neg hk]
    · rw [if_neg hp, alookup_map_set]
      by_cases hk : k = ip
      · subst hk
        rw [h, if_pos rfl]
        simp [hp]
      · rw [if_neg hk]
        cases alookup d k with
        | none => rfl
        | some v => rw [Option.map_some', if_neg hk]

end Cfray

namespace Cfray

/-- One step of `listMin`-accumulation. -/
def minStep (acc : Option ℚ) (x : ℚ) : Option ℚ :=
  match acc with
  | none => some x
  | some m => some (min m x)

lemma listMin_eq_foldl_minStep (l : List ℚ) : listMin l = l.foldl minStep none := rfl

lemma bestFold_lookup (rs : List (String × ℕ × ℚ)) (d : List (String × ℚ))
    (k : String) :
    alookup (rs.foldl (fun d r => bestUpdate d r.1 r.2.2) d) k =
      (rs.filterMap (fun r => if r.1 = k then some r.2.2 else none)).foldl
        minStep (alookup d k) := by
  induction rs generalizing d with
  | nil => rfl
  | cons r rest ih =>
    rw [List.foldl_cons, ih]
    by_cases hr : r.1 = k
    · have hcons : List.filterMap (fun r => if r.1 = k then some r.2.2 else none)
          (r :: rest) = r.2.2 ::
            List.filterMap (fun r => if r.1 = k then some r.2.2 else none) rest := by
        simp only [List.filterMap_cons, if_pos hr]
      rw [hcons, List.foldl_cons]
      congr 1
      rw [alookup_bestUpdate, if_pos hr.symm, ← hr]
      cases alookup d r.1 with
      | none => rfl
      | some cur => rfl
    · have hcons : List.filterMap (fun r => if r.1 = k then some r.2.2 else none)
          (r :: rest) =
            List.filterMap (fun r => if r.1 = k then some r.2.2 else none) rest := by
        simp only [List.filterMap_cons, if_neg hr]
      rw [hcons]
      congr 1
      rw [alookup_bestUpdate, if_neg (fun hc => hr hc.symm)]

/-- One step of port-set accumulation. -/
def portStep (acc : Option (List ℕ)) (p : ℕ) : Option (List ℕ) :=
  match acc with
  | none => some [p]
  | some ps => some (if p ∈ ps then ps else ps ++ [p])

lemma portsFold_lookup (rs : List (String × ℕ × ℚ))
    (d : List (String × List ℕ)) (k : String) :
    alookup (rs.foldl (fun d r => portsUpdate d r.1 r.2.1) d) k =
      (rs.filterMap (fun r => if r.1 = k then some r.2.1 else none)).foldl
        portStep (alookup d k) := by
  induction rs generalizing d with
  | nil => rfl
  | cons r rest ih =>
    rw [List.foldl_cons, ih]
    by_cases hr : r.1 = k
    · have hcons : List.filterMap (fun r => if r.1 = k then some r.2.1 else none)
          (r :: rest) = r.2.1 ::
            List.filterMap (fun r => if r.1 = k then some r.2.1 else none) rest := by
        simp only [List.filterMap_cons, if_pos hr]
      rw [hcons, List.foldl_cons]
      congr 1
      rw [alookup_portsUpdate, if_pos hr.symm, ← hr]
      cases alookup d r.1 with
      | none => rfl
      | some ps => rfl
    · have hcons : List.filterMap (fun r => if r.1 = k then some r.2.1 else none)
          (r :: rest) =
            List.filterMap (fun r => if r.1 = k then some r.2.1 else none) rest := by
        simp only [List.filterMap_cons, if_neg hr]
      rw [hcons]
      congr 1
      rw [alookup_portsUpdate, if_neg (fun hc => hr hc.symm)]

lemma portStep_fold_some (l : List ℕ) (ps : List ℕ) :
    l.foldl portStep (some ps) = some (dedupAcc ps l) := by
  induction l generalizing ps with
  | nil => rfl
  | cons p l ih =>
    rw [List.foldl_cons]
    show l.foldl portStep (some (if p ∈ ps then ps else ps ++ [p]))
      = some (dedupAcc ps (p :: l))
    rw [ih, dedupAcc]

lemma portStep_fold_none (l : List ℕ) :
    l.foldl portStep none =
      (if l = [] then none else some (dedupAcc [] l)) := by
  cases l with
  | nil => rfl
  | cons p l =>
    rw [List.foldl_cons]
    show l.foldl portStep (some [p]) = _
    rw [portStep_fold_some]
    have : dedupAcc [] (p :: l) = dedupAcc [p] l := by
      rw [dedupAcc]
      norm_num
    rw [this]
    simp

lemma dedupAcc_mem (acc l : List ℕ) (x : ℕ) :
    x ∈ dedupAcc acc l ↔ x ∈ acc ∨ x ∈ l := by
  induction l generalizing acc with
  | nil => simp [dedupAcc]
  | cons y ys ih =>
    by_cases hy : y ∈ acc
    · rw [dedupAcc, if_pos hy, ih]
      constructor
      · rintro (h | h)
        · exact Or.inl h
        · exact Or.inr (List.mem_cons_of_mem _ h)
      · rintro (h | h)
        · exact Or.inl h
        · rcases List.mem_cons.1 h with h | h
          · exact Or.inl (h ▸ hy)
          · exact Or.inr h
    · rw [dedupAcc, if_neg hy, ih]
      simp only [List.mem_append, List.mem_singleton, List.mem_cons]
      tauto

lemma alookup_none_iff {α : Type} (d : List (String × α)) (k : String) :
    alookup d k = none ↔ k ∉ d.map Prod.fst := by
  induction d with
  | nil => simp [alookup]
  | cons kv rest ih =>
    simp only [alookup, List.map_cons, List.mem_cons]
    by_cases h : kv.1 = k
    · simp [h]
    · rw [if_neg h, ih]
      constructor
      · rintro hn (h1 | h2)
        · exact h h1.symm
        · exact hn h2
      · intro hn
        exact fun h2 => hn (Or.inr h2)

lemma bestUpdate_keys_nodup (d : List (String × ℚ)) (ip : String) (lat : ℚ)
    (h : (d.map Prod.fst).Nodup) :
    ((bestUpdate d ip lat).map Prod.fst).Nodup := by
  unfold bestUpdate
  cases hl : alookup d ip with
  | none =>
    rw [List.map_append]
    simp only [List.map_cons, List.map_nil]
    rw [List.nodup_append]
    refine ⟨h, List.nodup_singleton _, ?_⟩
    intro a ha hb
    rw [List.mem_singleton] at hb
    rw [hb] at ha
    exact (alookup_none_iff d ip).1 hl ha
  | some cur =>
    dsimp only
    split
    · have : (d.map (fun kv => if kv.1 = ip then (ip, lat) else kv)).map
          Prod.fst = d.map Prod.fst := by
        rw [List.map_map]
        refine List.map_congr_left ?_
        intro kv _
        by_cases hk : kv.1 = ip
        · simp [hk]
        · simp [hk]
      rw [this]
      exact h
    · exact h

lemma bestFold_keys_nodup (rs : List (String × ℕ × ℚ))
    (d : List (String × ℚ)) (h : (d.map Prod.fst).Nodup) :
    (((rs.foldl (fun d r => bestUpdate d r.1 r.2.2) d)).map Prod.fst).Nodup := by
  induction rs generalizing d with
  | nil => exact h
  | cons r rest ih =>
    rw [List.foldl_cons]
    exact ih _ (bestUpdate_keys_nodup d r.1 r.2.2 h)

lemma insertSorted_perm (x : String × ℚ) (l : List (String × ℚ)) :
    (insertSorted x l).Perm (x :: l) := by
  induction l with
  | nil => exact List.Perm.refl _
  | cons y ys ih =>
    rw [insertSorted]
    split
    · exact List.Perm.refl _
    · exact List.Perm.trans (List.Perm.cons y ih) (List.Perm.swap x y ys)

lemma sortByLat_perm (l : List (String × ℚ)) : (sortByLat l).Perm l := by
  induction l with
  | nil => exact List.Perm.refl _
  | cons x xs ih =>
    have : sortByLat (x :: xs) = insertSorted x (sortByLat xs) := rfl
    rw [this]
    exact List.Perm.trans (insertSorted_perm x (sortByLat xs))
      (List.Perm.cons x ih)

lemma mem_iff_alookup {α : Type} [DecidableEq α] (d : List (String × α))
    (h : (d.map Prod.fst).Nodup) (k : String) (v : α) :
    (k, v) ∈ d ↔ alookup d k = some v := by
  induction d with
  | nil => simp [alookup]
  | cons kv rest ih =>
    rw [List.map_cons, List.nodup_cons] at h
    obtain ⟨hk1, hk2⟩ := h
    rw [List.mem_cons, alookup]
    by_cases hkk : kv.1 = k
    · rw [if_pos hkk]
      constructor
      · rintro (h1 | h2)
        · rw [← h1]
        · exfalso
          apply hk1
          rw [hkk]
          exact List.mem_map.2 ⟨(k, v), h2, rfl⟩
      · intro h1
        left
        rw [Option.some_inj] at h1
        rw [← hkk, ← h1]
    · rw [if_neg hkk, ih hk2]
      constructor
      · rintro (h1 | h2)
        · exact absurd (congrArg Prod.fst h1.symm) hkk
        · exact h2
      · exact fun h2 => Or.inr h2

/-- C3, counterexample.  `scan_clean_ips` itself does **not** deduplicate:
an IP answering on both scanned ports yields two result entries (the
non-443 one labelled `ip:port`), not a single min-latency entry. -/
theorem scan_clean_ips_multi_port_ctrex :
    scan_clean_ips [("1.2.3.4", 443), ("1.2.3.4", 8443)]
        (fun _ port => if port = 443 then ((10 : ℚ), true) else ((12 : ℚ), true))
      = [("1.2.3.4", 10), ("1.2.3.4:8443", 12)] ∧
    (scan_clean_ips [("1.2.3.4", 443), ("1.2.3.4", 8443)]
        (fun _ port => if port = 443 then ((10 : ℚ), true)
          else ((12 : ℚ), true))).length = 2 := by
  constructor <;> decide

/-- C3, amended.  The per-IP deduplication the claim describes lives in the
pipeline's IP-scan stage (`xray_pipeline_test`), not in `scan_clean_ips`:
there, `live_ips` carries at most one entry per IP, the entry's latency is
the minimum over all of that IP's successful probes, and
`live_ip_ports[ip]` is the duplicate-free set of that IP's working ports
(in first-seen order), recorded separately for downstream components. -/
theorem pipeline_dedup_spec (results : List (Option (String × ℕ × ℚ)))
    (ip : String) :
    ((pipeline_dedup results).1.map Prod.fst).count ip ≤ 1 ∧
    (∀ l : ℚ, (ip, l) ∈ (pipeline_dedup results).1 ↔
        listMin (latList ip results) = some l) ∧
    ((alookup (pipeline_dedup results).2 ip).getD []).Nodup ∧
    (∀ p : ℕ, p ∈ (alookup (pipeline_dedup results).2 ip).getD [] ↔
        p ∈ portList ip results) := by
  simp only [pipeline_dedup]
  have hkeys : (((results.filterMap id).foldl
      (fun d r => bestUpdate d r.1 r.2.2) []).map Prod.fst).Nodup :=
    bestFold_keys_nodup _ [] List.nodup_nil
  have hperm : ((sortByLat ((results.filterMap id).foldl
      (fun d r => bestUpdate d r.1 r.2.2) [])).map Prod.fst).Perm
      (((results.filterMap id).foldl
        (fun d r => bestUpdate d r.1 r.2.2) []).map Prod.fst) :=
    (sortByLat_perm _).map Prod.fst
  have hports := portsFold_lookup (results.filterMap id) [] ip
  have h0 : alookup ([] : List (String × List ℕ)) ip = none := rfl
  rw [h0, portStep_fold_none] at hports
  refine ⟨?_, ?_, ?_, ?_⟩
  · rw [hperm.count_eq]
    exact List.nodup_iff_count_le_one.1 hkeys ip
  · intro l
    rw [(sortByLat_perm _).mem_iff, mem_iff_alookup _ hkeys,
      bestFold_lookup, listMin_eq_foldl_minStep]
    have : alookup ([] : List (String × ℚ)) ip = none := rfl
    rw [this]
    rw [latList]
  · split at hports
    · rw [hports]
      exact List.nodup_nil
    · rw [hports]
      exact dedupAcc_nodup [] _ List.nodup_nil
  · intro p
    split at hports
    · next hemp =>
      rw [hports]
      unfold portList
      rw [hemp]
      simp
    · next hemp =>
      rw [hports]
      unfold portList
      simp only [Option.getD_some]
      rw [dedupAcc_mem]
      simp

end Cfray

namespace Cfray

/-! ### Pipeline variation generator (`generate_pipeline_variations`,
scanner.py lines 2139-2321)

External helpers that the generator calls but whose output the claim does
not depend on are parameters of the embedding: `infer_orig_sni`
(`_infer_orig_sni`), `switch_transport`, and `is_ip_address`
(`ipaddress.ip_address` succeeding).  `build_xray_config` and `_build_uri`
only fill the variation's opaque payload, so the embedded variation keeps
the identity fields and the assigned local port `base_port + idx`. -/

structure FragRec where
  packets : String
  len_range : String
  interval : String
  deriving Repr, DecidableEq

/-- `XRAY_FRAG_PRESETS` (scanner.py lines 161-181);
`XRAY_FRAG_PRESETS.get(p, XRAY_FRAG_PRESETS["all"])`. -/
def fragPresetsGet (name : String) : List (Option FragRec) :=
  if name = "none" then [none]
  else if name = "light" then [some ⟨"tlshello", "100-200", "10-20"⟩]
  else if name = "medium" then
    [some ⟨"tlshello", "50-100", "10-20"⟩,
     some ⟨"tlshello", "100-200", "20-40"⟩]
  else if name = "heavy" then
    [some ⟨"tlshello", "10-50", "5-10"⟩,
     some ⟨"tlshello", "50-100", "10-30"⟩,
     some ⟨"tlshello", "100-300", "20-50"⟩]
  else
    [none,
     some ⟨"tlshello", "100-200", "10-20"⟩,
     some ⟨"tlshello", "50-100", "10-30"⟩,
     some ⟨"tlshello", "10-50", "5-10"⟩]

/-- The fields of the parsed config the generator reads (`""` encodes a
missing key). -/
structure Parsed where
  security : String
  flow : String
  port : ℕ
  host : String
  sni : String
  address : String
  ptype : String
  mode : String
  deriving Repr, DecidableEq

/-- One emitted variation: identity fields plus the local SOCKS port
`base_port + idx` passed to `build_xray_config`. -/
structure GVar where
  ip : String
  srv_port : ℕ
  sni : String
  frag : Option FragRec
  t_name : String
  mode_label : String
  local_port : ℕ
  deriving Repr, DecidableEq

/-- `_add_variation`: refuses when `base_port + idx > 65535 or
len(variations) >= max_total` (note `idx == len(variations)` throughout:
both start at 0 and are bumped together). -/
def add_variation (base_port max_total : ℕ) (vars : List GVar)
    (ip : String) (srv_port : ℕ) (t_name sni : String)
    (frag : Option FragRec) (mode_label : String) : Option (List GVar) :=
  if 65535 < base_port + vars.length ∨ max_total ≤ vars.length then none
  else some (vars ++
    [⟨ip, srv_port, sni, frag, t_name, mode_label, base_port + vars.length⟩])

/-- The xhttp-mode sub-loop (`for _m in _xhttp_modes`); a refused
`_add_variation` breaks it. -/
def modeLoop (base_port max_total : ℕ) (ip : String) (srv_port : ℕ)
    (t_name sni : String) (frag : Option FragRec) :
    List String → List GVar → List GVar
  | [], vars => vars
  | m :: ms, vars =>
    match add_variation base_port max_total vars ip srv_port t_name sni
        frag m with
    | none => vars
    | some vars' => modeLoop base_port max_total ip srv_port t_name sni
        frag ms vars'

/-- The innermost fragment loop; a refused `_add_variation` breaks it, and
xhttp-mode variations are emitted after the `frag is None` row of an
xhttp/splithttp transport. -/
def fragLoop (base_port max_total : ℕ) (ip : String) (srv_port : ℕ)
    (t_name t_type sni : String) (xhttp_modes : List String) :
    List (Option FragRec) → List GVar → List GVar
  | [], vars => vars
  | f :: fs, vars =>
    match add_variation base_port max_total vars ip srv_port t_name sni
        f "" with
    | none => vars
    | some vars1 =>
      let vars2 :=
        if xhttp_modes ≠ [] ∧ f = none ∧
            (t_type = "xhttp" ∨ t_type = "splithttp") then
          modeLoop base_port max_total ip srv_port t_name sni f
            xhttp_modes vars1
        else vars1
      fragLoop base_port max_total ip srv_port t_name t_type sni
        xhttp_modes fs vars2

/-- The SNI loop; checks `len(variations) >= max_total` after each SNI. -/
def sniLoop (base_port max_total : ℕ) (ip : String) (srv_port : ℕ)
    (t_name t_type : String) (xhttp_modes : List String)
    (fragments : List (Option FragRec)) :
    List String → List GVar → List GVar
  | [], vars => vars
  | sni :: rest, vars =>
    let vars1 := fragLoop base_port max_total ip srv_port t_name t_type sni
      xhttp_modes fragments vars
    if max_total ≤ vars1.length then vars1
    else sniLoop base_port max_total ip srv_port t_name t_type xhttp_modes
      fragments rest vars1

/-- The transport loop. -/
def transportLoop (base_port max_total : ℕ) (ip : String) (srv_port : ℕ)
    (xhttp_modes : List String) (fragments : List (Option FragRec))
    (snis : List String) :
    List (String × Parsed) → List GVar → List GVar
  | [], vars => vars
  | (t_name, t_parsed) :: rest, vars =>
    let t_type := if t_parsed.ptype = "" then "tcp" else t_parsed.ptype
    let vars1 := sniLoop base_port max_total ip srv_port t_name t_type
      xhttp_modes fragments snis vars
    if max_total ≤ vars1.length then vars1
    else transportLoop base_port max_total ip srv_port xhttp_modes
      fragments snis rest vars1

/-- The per-IP port loop. -/
def portLoop (base_port max_total : ℕ) (ip : String)
    (xhttp_modes : List String) (fragments : List (Option FragRec))
    (snis : List String) (transports : List (String × Parsed)) :
    List ℕ → List GVar → List GVar
  | [], vars => vars
  | p :: rest, vars =>
    let vars1 := transportLoop base_port max_total ip p xhttp_modes
      fragments snis transports vars
    if max_total ≤ vars1.length then vars1
    else portLoop base_port max_total ip xhttp_modes fragments snis
      transports rest vars1

/-- The outer IP loop. -/
def ipLoop (base_port max_total : ℕ) (xhttp_modes : List String)
    (fragments : List (Option FragRec)) (snis : List String)
    (transports : List (String × Parsed)) (portsOf : String → List ℕ) :
    List String → List GVar → List GVar
  | [], vars => vars
  | ip :: rest, vars =>
    let vars1 := portLoop base_port max_total ip xhttp_modes fragments snis
      transports (portsOf ip) vars
    if max_total ≤ vars1.length then vars1
    else ipLoop base_port max_total xhttp_modes fragments snis transports
      portsOf rest vars1

/-- `generate_pipeline_variations`: SNI-pool construction, fragment and
transport selection, budget arithmetic (Python `//` is `ℕ` division) and
the nested emission loops. -/
def generate_pipeline_variations (parsed : Parsed) (working_ips : List String)
    (sni_pool : List String) (frag_preset : String)
    (transport_variants : List String) (base_port : ℕ)
    (max_total : ℕ) (max_snis_per_ip : ℕ)
    (ip_ports : Option (List (String × List ℕ)))
    (infer_orig_sni : Parsed → String)
    (switch_transport : Parsed → String → Option Parsed)
    (is_ip_address : String → Bool) : List GVar :=
  if working_ips = [] then []
  else
    let _sec := if parsed.security = "" then "none" else parsed.security
    let _no_tls := _sec = "none" ∨ _sec = ""
    let _is_reality := _sec = "reality"
    let _is_vision := parsed.flow.startsWith "xtls-rprx-vision"
    let _orig_port := parsed.port
    let orig_sni := infer_orig_sni parsed
    let parsed1 := if parsed.host = "" ∧ orig_sni ≠ "" then
      { parsed with host := orig_sni } else parsed
    let effective_snis :=
      if _is_reality then
        [if parsed1.sni ≠ "" then parsed1.sni else orig_sni]
      else if _no_tls then
        [if orig_sni ≠ "" then orig_sni else parsed1.address]
      else
        let s0 : List String :=
          if parsed1.host ≠ "" ∧ ¬ is_ip_address parsed1.host then
            [parsed1.host] else []
        let s1 := if orig_sni ≠ "" ∧ orig_sni ∉ s0 then s0 ++ [orig_sni]
          else s0
        sni_pool.foldl (fun acc s => if s ∉ acc then acc ++ [s] else acc) s1
    let fragments0 :=
      if _no_tls ∨ _is_reality ∨ _is_vision then [none]
      else fragPresetsGet frag_preset
    let transport_configs0 : List (String × Parsed) :=
      if ¬ _is_reality ∧ ¬ _no_tls then
        transport_variants.foldl (fun acc tv =>
          let orig_type := if parsed1.ptype = "" then "tcp" else parsed1.ptype
          if tv ≠ orig_type then
            match switch_transport parsed1 tv with
            | some switched => acc ++ [(tv, switched)]
            | none => acc
          else acc) [("orig", parsed1)]
      else [("orig", parsed1)]
    let _orig_net := if parsed1.ptype = "" then "tcp" else parsed1.ptype
    let _xhttp_modes : List String :=
      if _orig_net = "xhttp" ∨ _orig_net = "splithttp" then
        let _orig_mode := if parsed1.mode = "" then "auto" else parsed1.mode
        ["auto", "packet-up", "stream-up", "stream-down"].filter
          (fun m => m ≠ _orig_mode)
      else []
    let n_ips := working_ips.length
    let _avg_ports :=
      match ip_ports with
      | some d =>
        if d ≠ [] then
          max 1 ((working_ips.map
            (fun ip => ((alookup d ip).getD [_orig_port]).length)).sum / n_ips)
        else 1
      | none => 1
    let per_ip := max 1 (max_total / n_ips)
    let per_port := max 1 (per_ip / _avg_ports)
    let snis_budget := max 1 (min (min max_snis_per_ip per_port)
      effective_snis.length)
    let n_frags_eff := max 1 (per_port / max 1 snis_budget)
    let fragments := fragments0.take n_frags_eff
    let _t_budget := max 1 (per_port / max 1 (snis_budget * n_frags_eff))
    let transport_configs := transport_configs0.take _t_budget
    let effective_snis1 := effective_snis.take snis_budget
    let portsOf : String → List ℕ := fun ip =>
      match ip_ports with
      | some d => if d ≠ [] then (alookup d ip).getD [_orig_port]
        else [_orig_port]
      | none => [_orig_port]
    ipLoop base_port max_total _xhttp_modes fragments effective_snis1
      transport_configs portsOf working_ips []

end Cfray

namespace Cfray

/-- Invariant carried through the emission loops: the budget is respected,
local ports are consecutive from `base_port`, and every assigned local
port fits a TCP port. -/
def GenInv (base_port max_total : ℕ) (vars : List GVar) : Prop :=
  vars.length ≤ max_total ∧
  vars.map GVar.local_port = (List.range vars.length).map
    (fun i => base_port + i) ∧
  ∀ v ∈ vars, v.local_port ≤ 65535

lemma add_variation_inv {base_port max_total : ℕ} {vars : List GVar}
    {ip : String} {srv_port : ℕ} {t_name sni : String}
    {frag : Option FragRec} {mode_label : String} {out : List GVar}
    (hinv : GenInv base_port max_total vars)
    (h : add_variation base_port max_total vars ip srv_port t_name sni
      frag mode_label = some out) :
    GenInv base_port max_total out := by
  unfold add_variation at h
  by_cases hg : 65535 < base_port + vars.length ∨ max_total ≤ vars.length
  · rw [if_pos hg] at h
    exact absurd h (by simp)
  · rw [if_neg hg] at h
    push_neg at hg
    obtain ⟨hport, hlen⟩ := hg
    obtain ⟨h1, h2, h3⟩ := hinv
    rw [Option.some_inj] at h
    subst h
    refine ⟨by simpa using hlen, ?_, ?_⟩
    · rw [List.map_append, h2, List.length_append]
      simp only [List.map_cons, List.map_nil, List.length_cons,
        List.length_nil]
      rw [List.range_succ, List.map_append]
      rfl
    · intro v hv
      rcases List.mem_append.1 hv with hv | hv
      · exact h3 v hv
      · rw [List.mem_singleton] at hv
        subst hv
        exact hport

lemma modeLoop_inv {base_port max_total : ℕ} {ip : String} {srv_port : ℕ}
    {t_name sni : String} {frag : Option FragRec} (ms : List String)
    (vars : List GVar) (hinv : GenInv base_port max_total vars) :
    GenInv base_port max_total
      (modeLoop base_port max_total ip srv_port t_name sni frag ms vars) := by
  induction ms generalizing vars with
  | nil => exact hinv
  | cons m ms ih =>
    rw [modeLoop]
    cases h : add_variation base_port max_total vars ip srv_port t_name sni
        frag m with
    | none => exact hinv
    | some vars' => exact ih vars' (add_variation_inv hinv h)

lemma fragLoop_inv {base_port max_total : ℕ} {ip : String} {srv_port : ℕ}
    {t_name t_type sni : String} {xhttp_modes : List String}
    (fs : List (Option FragRec)) (vars : List GVar)
    (hinv : GenInv base_port max_total vars) :
    GenInv base_port max_total
      (fragLoop base_port max_total ip srv_port t_name t_type sni
        xhttp_modes fs vars) := by
  induction fs generalizing vars with
  | nil => exact hinv
  | cons f fs ih =>
    rw [fragLoop]
    cases h : add_variation base_port max_total vars ip srv_port t_name sni
        f "" with
    | none => exact hinv
    | some vars1 =>
      have h1 := add_variation_inv hinv h
      dsimp only
      split
      · exact ih _ (modeLoop_inv _ _ h1)
      · exact ih _ h1

lemma sniLoop_inv {base_port max_total : ℕ} {ip : String} {srv_port : ℕ}
    {t_name t_type : String} {xhttp_modes : List String}
    {fragments : List (Option FragRec)} (snis : List String)
    (vars : List GVar) (hinv : GenInv base_port max_total vars) :
    GenInv base_port max_total
      (sniLoop base_port max_total ip srv_port t_name t_type xhttp_modes
        fragments snis vars) := by
  induction snis generalizing vars with
  | nil => exact hinv
  | cons sni rest ih =>
    rw [sniLoop]
    split
    · exact fragLoop_inv _ _ hinv
    · exact ih _ (fragLoop_inv _ _ hinv)

lemma transportLoop_inv {base_port max_total : ℕ} {ip : String}
    {srv_port : ℕ} {xhttp_modes : List String}
    {fragments : List (Option FragRec)} {snis : List String}
    (ts : List (String × Parsed)) (vars : List GVar)
    (hinv : GenInv base_port max_total vars) :
    GenInv base_port max_total
      (transportLoop base_port max_total ip srv_port xhttp_modes fragments
        snis ts vars) := by
  induction ts generalizing vars with
  | nil => exact hinv
  | cons t rest ih =>
    obtain ⟨t_name, t_parsed⟩ := t
    rw [transportLoop]
    split <;> split <;>
      first
        | exact sniLoop_inv _ _ hinv
        | exact ih _ (sniLoop_inv _ _ hinv)

lemma portLoop_inv {base_port max_total : ℕ} {ip : String}
    {xhttp_modes : List String} {fragments : List (Option FragRec)}
    {snis : List String} {transports : List (String × Parsed)}
    (ports : List ℕ) (vars : List GVar)
    (hinv : GenInv base_port max_total vars) :
    GenInv base_port max_total
      (portLoop base_port max_total ip xhttp_modes fragments snis
        transports ports vars) := by
  induction ports generalizing vars with
  | nil => exact hinv
  | cons p rest ih =>
    rw [portLoop]
    split
    · exact transportLoop_inv _ _ hinv
    · exact ih _ (transportLoop_inv _ _ hinv)

lemma ipLoop_inv {base_port max_total : ℕ} {xhttp_modes : List String}
    {fragments : List (Option FragRec)} {snis : List String}
    {transports : List (String × Parsed)} {portsOf : String → List ℕ}
    (ips : List String) (vars : List GVar)
    (hinv : GenInv base_port max_total vars) :
    GenInv base_port max_total
      (ipLoop base_port max_total xhttp_modes fragments snis transports
        portsOf ips vars) := by
  induction ips generalizing vars with
  | nil => exact hinv
  | cons ip rest ih =>
    rw [ipLoop]
    split
    · exact portLoop_inv _ _ hinv
    · exact ih _ (portLoop_inv _ _ hinv)

/-- C4: for every input, the variation generator emits at most `max_total`
variations, the local ports are exactly `base_port + index`, and every
assigned local port is ≤ 65535. -/
theorem generate_pipeline_variations_budget (parsed : Parsed)
    (working_ips : List String) (sni_pool : List String)
    (frag_preset : String) (transport_variants : List String)
    (base_port max_total max_snis_per_ip : ℕ)
    (ip_ports : Option (List (String × List ℕ)))
    (infer_orig_sni : Parsed → String)
    (switch_transport : Parsed → String → Option Parsed)
    (is_ip_address : String → Bool) :
    (generate_pipeline_variations parsed working_ips sni_pool frag_preset
        transport_variants base_port max_total max_snis_per_ip ip_ports
        infer_orig_sni switch_transport is_ip_address).length ≤ max_total ∧
    (generate_pipeline_variations parsed working_ips sni_pool frag_preset
        transport_variants base_port max_total max_snis_per_ip ip_ports
        infer_orig_sni switch_transport is_ip_address).map GVar.local_port =
      (List.range (generate_pipeline_variations parsed working_ips sni_pool
        frag_preset transport_variants base_port max_total max_snis_per_ip
        ip_ports infer_orig_sni switch_transport is_ip_address).length).map
        (fun i => base_port + i) ∧
    ∀ v ∈ generate_pipeline_variations parsed working_ips sni_pool
        frag_preset transport_variants base_port max_total max_snis_per_ip
        ip_ports infer_orig_sni switch_transport is_ip_address,
      v.local_port ≤ 65535 := by
  have h0 : GenInv base_port max_total [] :=
    ⟨Nat.zero_le _, rfl, by intro v hv; cases hv⟩
  unfold generate_pipeline_variations
  split
  · exact ⟨Nat.zero_le _, rfl, by intro v hv; cases hv⟩
  · exact ipLoop_inv _ _ h0

/-- Closed witness for `generate_pipeline_variations_budget`: the first
variation generated for a small concrete input carries local port 10000. -/
theorem generate_pipeline_variations_budget_witness :
    (⟨"9.9.9.9", 443, "h.example", some ⟨"tlshello", "100-200", "10-20"⟩,
        "orig", "", 10000⟩ : GVar).local_port ≤ 65535 :=
  (generate_pipeline_variations_budget
      ⟨"tls", "", 443, "h.example", "s.example", "1.2.3.4", "ws", "auto"⟩
      ["9.9.9.9"] [] "light" [] 10000 3 10 none
      (fun _ => "s.example") (fun p _ => some p) (fun _ => false)).2.2
    ⟨"9.9.9.9", 443, "h.example", some ⟨"tlshello", "100-200", "10-20"⟩,
      "orig", "", 10000⟩
    (by decide)

end Cfray

namespace Cfray

/-! ### Native VLESS-WS prober, outer connection
(`_vless_ws_speed_test`, scanner.py lines 1896-1914) -/

/-- How the outer socket is opened: a TLS connection (with the given
`server_hostname`, `check_hostname = False`, `verify_mode = CERT_NONE`
encoded as `verify_disabled = true`) or a plain TCP connection. -/
inductive ConnMode
  | tlsConn (server_hostname : String) (verify_disabled : Bool)
  | plainTcp
  deriving Repr, DecidableEq

/-- The outer-connection dispatch of `_vless_ws_speed_test`:
`if security == "tls":` TLS with SNI = `sni` and verification disabled,
`else:` plain TCP. -/
def vless_outer_conn (security sni : String) : ConnMode :=
  if security = "tls" then ConnMode.tlsConn sni true
  else ConnMode.plainTcp

/-- The outer connection as the claim states it: TLS for
`security ∈ {tls, reality}`, plain TCP otherwise. -/
def outer_conn_per_claim (security sni : String) : ConnMode :=
  if security = "tls" ∨ security = "reality" then ConnMode.tlsConn sni true
  else ConnMode.plainTcp

/-- C5, counterexample.  For `security = "reality"` the code opens a
**plain TCP** connection (the branch tests `security == "tls"` only),
while the claim demands a TLS handshake. -/
theorem vless_outer_conn_ctrex :
    vless_outer_conn "reality" "example.com" = ConnMode.plainTcp ∧
    outer_conn_per_claim "reality" "example.com" =
      ConnMode.tlsConn "example.com" true ∧
    ConnMode.plainTcp ≠ ConnMode.tlsConn "example.com" true := by
  refine ⟨by decide, by decide, by decide⟩

/-- C5, amended.  The outer connection of the native tunnel prober is a
TCP + TLS handshake to `(ip, port)` with SNI = `sni` and certificate
verification disabled **exactly when** `security = "tls"`; every other
security value — including `"reality"` — yields a plain TCP connection. -/
theorem vless_outer_conn_amended (security sni : String) :
    (vless_outer_conn security sni = ConnMode.tlsConn sni true ↔
      security = "tls") ∧
    (vless_outer_conn security sni = ConnMode.plainTcp ↔
      security ≠ "tls") := by
  unfold vless_outer_conn
  by_cases h : security = "tls"
  · rw [if_pos h]
    constructor
    · exact ⟨fun _ => h, fun _ => rfl⟩
    · constructor
      · intro hc
        cases hc
      · intro hc
        exact absurd h hc
  · rw [if_neg h]
    constructor
    · constructor
      · intro hc
        cases hc
      · intro hc
        exact absurd hc h
    · exact ⟨fun _ => h, fun _ => rfl⟩

/-! ### Native VLESS-WS prober, inner HTTP phase
(`_vless_ws_speed_test`, scanner.py lines 1975-2021)

`_vless_ws_read_tunnel` delivers decapsulated tunnel chunks; the model
abstracts it as a script of events: `data chunk` (a non-empty chunk in the
code; empty chunks are skipped by the loop, which the model mirrors) or
`closed reason`.  Exhaustion of the script models the `dl_deadline`
expiring.  `connect_ms` is the measured connect time, `ttfb_sample` the
`(now - t0)*1000 - connect_ms` value read when the header completes, and
`dl_t` the elapsed download time read after the loop — all parameters,
since the clock is external to the pure logic. -/

inductive TunEvt
  | data (chunk : List ℕ)
  | closed (reason : String)
  deriving Repr, DecidableEq

/-- Python whitespace for `str.split(None)` restricted to latin-1 bytes:
`\t \n \v \f \r`, the C1 separators `\x1c`-`\x1f`, space, NEL `\x85` and
NBSP `\xa0`. -/
def isPySpace (b : ℕ) : Bool :=
  b = 9 ∨ b = 10 ∨ b = 11 ∨ b = 12 ∨ b = 13 ∨ b = 28 ∨ b = 29 ∨ b = 30 ∨
    b = 31 ∨ b = 32 ∨ b = 133 ∨ b = 160

/-- Does the byte list start with `\r\n\r\n`? -/
def startsWithSep : List ℕ → Bool
  | 13 :: 10 :: 13 :: 10 :: _ => true
  | _ => false

/-- Index of the first `\r\n\r\n` (Python `http_buf.index(b"\r\n\r\n")`),
`none` when absent (`b"\r\n\r\n" in http_buf` is false). -/
def findSep : List ℕ → Option ℕ
  | [] => none
  | b :: t =>
    if startsWithSep (b :: t) then some 0
    else (findSep t).map (· + 1)

/-- Everything before the first `\r\n` (`h_line.split("\r\n")[0]`). -/
def takeUntilCRLF : List ℕ → List ℕ
  | 13 :: 10 :: _ => []
  | [] => []
  | b :: t => b :: takeUntilCRLF t

/-- The second whitespace-delimited token
(`h_line.split(None, 2)[1]`, `""` when fewer than two tokens). -/
def secondToken (l : List ℕ) : List ℕ :=
  ((l.dropWhile isPySpace).dropWhile (fun b => !isPySpace b)).dropWhile
      isPySpace |>.takeWhile (fun b => !isPySpace b)

/-- `"200"` and `"204"` as latin-1 bytes. -/
def B200 : List ℕ := [50, 48, 48]

def B204 : List ℕ := [50, 48, 52]

/-- Latin-1 decoding for error labels. -/
def bytesToStr (l : List ℕ) : String :=
  String.mk (l.map Char.ofNat)

structure ProbeOut where
  connect_ms : ℚ
  ttfb_ms : ℚ
  mbps : ℚ
  error : String
  deriving Repr, DecidableEq

/-- The final throughput computation:
`dl_t = (now - t0) - connect_ms/1000`;
`mbps = (body_total / 1_000_000) / dl_t if dl_t > 0.001 else 0.01`;
`return ..., max(mbps, 0.001), ""`. -/
def vlessFinishMbps (body_total : ℕ) (dl_t : ℚ) : ℚ :=
  let mbps := if 1/1000 < dl_t then ((body_total : ℚ) / 1000000) / dl_t
    else 1/100
  max mbps (1/1000)

/-- The read loop of `_vless_ws_speed_test` after the VLESS request is
sent: accumulate `http_buf` until `\r\n\r\n`, require status `200`/`204`,
then count body bytes until more than 50 arrive, the connection closes, or
the deadline (script exhaustion) hits.  Returns the result tuple and the
final `body_total` (the latter as a ghost output for the statements). -/
def vlessHttpLoop (connect_ms ttfb_sample dl_t : ℚ) :
    List TunEvt → List ℕ → Bool → ℕ → ProbeOut × ℕ
  | [], _, hdr_done, body =>
    if hdr_done then
      (⟨connect_ms, ttfb_sample, vlessFinishMbps body dl_t, ""⟩, body)
    else (⟨connect_ms, -1, 0, "probe-no-response"⟩, body)
  | TunEvt.closed reason :: _, _, hdr_done, body =>
    if hdr_done then
      (⟨connect_ms, ttfb_sample, vlessFinishMbps body dl_t, ""⟩, body)
    else (⟨connect_ms, -1, 0,
      if reason = "" then "probe-closed" else reason⟩, body)
  | TunEvt.data chunk :: rest, http_buf, hdr_done, body =>
    if chunk = [] then
      vlessHttpLoop connect_ms ttfb_sample dl_t rest http_buf hdr_done body
    else if hdr_done then
      let body1 := body + chunk.length
      if 50 < body1 then
        (⟨connect_ms, ttfb_sample, vlessFinishMbps body1 dl_t, ""⟩, body1)
      else vlessHttpLoop connect_ms ttfb_sample dl_t rest http_buf true body1
    else
      let buf1 := http_buf ++ chunk
      match findSep buf1 with
      | none =>
        vlessHttpLoop connect_ms ttfb_sample dl_t rest buf1 false body
      | some idx =>
        let code := secondToken (takeUntilCRLF (buf1.take (idx + 4)))
        if code = B200 ∨ code = B204 then
          vlessHttpLoop connect_ms ttfb_sample dl_t rest buf1 true
            (buf1.length - (idx + 4))
        else
          (⟨connect_ms, -1, 0, "probe-http:" ++ bytesToStr code⟩, body)

/-- The inner HTTP status carried by the event stream: the second token of
the first line once `\r\n\r\n` has accumulated; `none` when the stream
closes or ends first. -/
def streamStatus : List TunEvt → List ℕ → Option (List ℕ)
  | [], _ => none
  | TunEvt.closed _ :: _, _ => none
  | TunEvt.data chunk :: rest, buf =>
    let buf1 := buf ++ chunk
    match findSep buf1 with
    | none => streamStatus rest buf1
    | some idx => some (secondToken (takeUntilCRLF (buf1.take (idx + 4))))

/-- The claimed throughput formula (`max(body_bytes / elapsed, 0.001)`,
reading `body_bytes` in megabytes as the variable name `mbps` implies). -/
def mbps_per_claim (body_total : ℕ) (elapsed : ℚ) : ℚ :=
  max (((body_total : ℚ) / 1000000) / elapsed) (1/1000)

end Cfray

namespace Cfray

lemma probe_http_ne_empty (c : List ℕ) : "probe-http:" ++ bytesToStr c ≠ "" := by
  intro h
  have hlen := congrArg String.length h
  rw [String.length_append] at hlen
  have h1 : "probe-http:".length = 11 := rfl
  have h2 : "".length = 0 := rfl
  rw [h1, h2] at hlen
  omega

lemma vlessFinishMbps_pos (body : ℕ) (dl_t : ℚ) :
    0 < vlessFinishMbps body dl_t :=
  lt_of_lt_of_le (by norm_num) (le_max_right _ _)

lemma vlessHttpLoop_done (connect ttfb dl_t : ℚ) (events : List TunEvt)
    (buf : List ℕ) (body : ℕ) :
    (vlessHttpLoop connect ttfb dl_t events buf true body).1 =
      ⟨connect, ttfb,
        vlessFinishMbps (vlessHttpLoop connect ttfb dl_t events buf true
          body).2 dl_t, ""⟩ := by
  induction events generalizing buf body with
  | nil => rfl
  | cons e rest ih =>
    cases e with
    | closed reason => rfl
    | data chunk =>
      rw [vlessHttpLoop]
      by_cases hc : chunk = []
      · rw [if_pos hc]
        exact ih buf body
      · rw [if_neg hc, if_pos rfl]
        dsimp only
        split
        · rfl
        · exact ih buf _

lemma vlessHttpLoop_spec (connect ttfb dl_t : ℚ) (events : List TunEvt)
    (buf : List ℕ) (body : ℕ) (hbuf : findSep buf = none) :
    match streamStatus events buf with
    | some c =>
      if c = B200 ∨ c = B204 then
        (vlessHttpLoop connect ttfb dl_t events buf false body).1.error = ""
          ∧ (vlessHttpLoop connect ttfb dl_t events buf false body).1.mbps =
            vlessFinishMbps
              (vlessHttpLoop connect ttfb dl_t events buf false body).2 dl_t
      else
        (vlessHttpLoop connect ttfb dl_t events buf false body).1 =
          ⟨connect, -1, 0, "probe-http:" ++ bytesToStr c⟩
    | none =>
      (vlessHttpLoop connect ttfb dl_t events buf false body).1.error ≠ ""
        ∧ (vlessHttpLoop connect ttfb dl_t events buf false body).1.mbps
          = 0 := by
  induction events generalizing buf body with
  | nil =>
    show ((⟨connect, -1, 0, "probe-no-response"⟩ : ProbeOut).error ≠ "") ∧ _
    exact ⟨by simp, rfl⟩
  | cons e rest ih =>
    cases e with
    | closed reason =>
      show ((if reason = "" then "probe-closed" else reason : String) ≠ "") ∧ _
      constructor
      · split
        · simp
        · next hne => exact hne
      · rfl
    | data chunk =>
      by_cases hc : chunk = []
      · subst hc
        have h1 : vlessHttpLoop connect ttfb dl_t (TunEvt.data [] :: rest)
            buf false body =
            vlessHttpLoop connect ttfb dl_t rest buf false body := by
          rw [vlessHttpLoop, if_pos rfl]
        have h2 : streamStatus (TunEvt.data [] :: rest) buf =
            streamStatus rest buf := by
          rw [streamStatus]
          simp only [List.append_nil, hbuf]
        rw [h1, h2]
        exact ih buf body hbuf
      · have h1 : vlessHttpLoop connect ttfb dl_t (TunEvt.data chunk :: rest)
            buf false body =
            (match findSep (buf ++ chunk) with
            | none =>
              vlessHttpLoop connect ttfb dl_t rest (buf ++ chunk) false body
            | some idx =>
              let code := secondToken (takeUntilCRLF
                ((buf ++ chunk).take (idx + 4)))
              if code = B200 ∨ code = B204 then
                vlessHttpLoop connect ttfb dl_t rest (buf ++ chunk) true
                  ((buf ++ chunk).length - (idx + 4))
              else
                (⟨connect, -1, 0, "probe-http:" ++ bytesToStr code⟩,
                  body)) := by
          rw [vlessHttpLoop, if_neg hc, if_neg (by simp : ¬(false = true))]
        have h2 : streamStatus (TunEvt.data chunk :: rest) buf =
            (match findSep (buf ++ chunk) with
            | none => streamStatus rest (buf ++ chunk)
            | some idx => some (secondToken (takeUntilCRLF
                ((buf ++ chunk).take (idx + 4))))) := by
          rw [streamStatus]
        rw [h1, h2]
        cases hf : findSep (buf ++ chunk) with
        | none => exact ih (buf ++ chunk) body hf
        | some idx =>
          dsimp only
          split
          · constructor
            · rw [vlessHttpLoop_done]
            · rw [vlessHttpLoop_done]
          · rfl

end Cfray

namespace Cfray

lemma vlessHttpLoop_cases (connect ttfb dl_t : ℚ) (events : List TunEvt)
    (buf : List ℕ) (body : ℕ) (hbuf : findSep buf = none) :
    (streamStatus events buf = none →
      (vlessHttpLoop connect ttfb dl_t events buf false body).1.error ≠ ""
        ∧ (vlessHttpLoop connect ttfb dl_t events buf false
            body).1.mbps = 0) ∧
    (∀ c, streamStatus events buf = some c → (c = B200 ∨ c = B204) →
      (vlessHttpLoop connect ttfb dl_t events buf false body).1.error = ""
        ∧ (vlessHttpLoop connect ttfb dl_t events buf false body).1.mbps =
          vlessFinishMbps
            (vlessHttpLoop connect ttfb dl_t events buf false body).2
            dl_t) ∧
    (∀ c, streamStatus events buf = some c → ¬(c = B200 ∨ c = B204) →
      (vlessHttpLoop connect ttfb dl_t events buf false body).1 =
        ⟨connect, -1, 0, "probe-http:" ++ bytesToStr c⟩) := by
  have hs := vlessHttpLoop_spec connect ttfb dl_t events buf body hbuf
  cases hstream : streamStatus events buf with
  | none =>
    rw [hstream] at hs
    dsimp only at hs
    refine ⟨fun _ => hs, ?_, ?_⟩ <;>
      · intro c hc
        exact Option.noConfusion hc
  | some c =>
    rw [hstream] at hs
    dsimp only at hs
    by_cases hgood : c = B200 ∨ c = B204
    · rw [if_pos hgood] at hs
      refine ⟨?_, ?_, ?_⟩
      · intro hn
        exact Option.noConfusion hn
      · intro c' hc' _
        have hcc : c = c' := Option.some_inj.1 hc'
        subst hcc
        exact hs
      · intro c' hc' hbad'
        have hcc : c = c' := Option.some_inj.1 hc'
        subst hcc
        exact absurd hgood hbad'
    · rw [if_neg hgood] at hs
      refine ⟨?_, ?_, ?_⟩
      · intro hn
        exact Option.noConfusion hn
      · intro c' hc' hgood'
        have hcc : c = c' := Option.some_inj.1 hc'
        subst hcc
        exact absurd hgood' hgood
      · intro c' hc' _
        have hcc : c = c' := Option.some_inj.1 hc'
        subst hcc
        exact hs

/-- The concrete tunnel script of the C6 analysis: one data chunk carrying
`HTTP/1.1 200 OK\r\n\r\n` followed by 300 body bytes. -/
def probeCtrexEvents : List TunEvt :=
  [TunEvt.data ([72, 84, 84, 80, 47, 49, 46, 49, 32, 50, 48, 48, 32, 79,
    75, 13, 10, 13, 10] ++ List.replicate 300 97)]

set_option maxRecDepth 20000 in
/-- C6, counterexample.  A successful probe whose measured elapsed time is
exactly 1 ms (`dl_t = 0.001`, not `> 0.001`) returns `mbps = 0.01`
regardless of the byte count, while the claimed formula
`max(body_bytes / elapsed, 0.001)` gives 0.3 for 300 body bytes (megabyte
reading; 300000 in the raw-bytes reading). -/
theorem vless_mbps_formula_ctrex :
    (vlessHttpLoop 5 2 (1/1000) probeCtrexEvents [] false 0).1.error = "" ∧
    (vlessHttpLoop 5 2 (1/1000) probeCtrexEvents [] false 0).2 = 300 ∧
    (vlessHttpLoop 5 2 (1/1000) probeCtrexEvents [] false 0).1.mbps =
      1/100 ∧
    mbps_per_claim 300 (1/1000) = 3/10 ∧ ((1 : ℚ)/100) ≠ 3/10 ∧
    ((1 : ℚ)/100) ≠ (300 : ℚ) / (1/1000) := by
  have hst : streamStatus probeCtrexEvents [] = some B200 := by decide
  have hs := (vlessHttpLoop_cases 5 2 (1/1000) probeCtrexEvents [] 0
    rfl).2.1 B200 hst (Or.inl rfl)
  obtain ⟨herr, hmbps⟩ := hs
  have hbody : (vlessHttpLoop 5 2 (1/1000) probeCtrexEvents [] false 0).2
      = 300 := by decide
  refine ⟨herr, hbody, ?_, ?_, by norm_num, by norm_num⟩
  · rw [hmbps, hbody]
    unfold vlessFinishMbps
    rw [if_neg (by norm_num), max_eq_left (by norm_num)]
  · unfold mbps_per_claim
    norm_num

/-- C6, amended.  The native probe's HTTP phase returns an empty error
(success) **iff** the inner response status parsed from the tunnel is 200
or 204; on success `mbps = max(raw, 0.001) > 0` where
`raw = (body_bytes/1e6)/elapsed` **when elapsed > 1 ms** but `raw = 0.01`
when `elapsed ≤ 1 ms`; any other parsed status yields the error
`probe-http:<status>` with `mbps = 0` (and a close or deadline before the
header also yields a non-empty error with `mbps = 0`). -/
theorem vless_probe_inner_status (events : List TunEvt)
    (connect ttfb_sample dl_t : ℚ) :
    ((vlessHttpLoop connect ttfb_sample dl_t events [] false 0).1.error = ""
      ↔ ∃ c, streamStatus events [] = some c ∧ (c = B200 ∨ c = B204)) ∧
    ((vlessHttpLoop connect ttfb_sample dl_t events [] false 0).1.error = ""
      → 0 < (vlessHttpLoop connect ttfb_sample dl_t events [] false
          0).1.mbps ∧
        (vlessHttpLoop connect ttfb_sample dl_t events [] false 0).1.mbps =
          vlessFinishMbps
            (vlessHttpLoop connect ttfb_sample dl_t events [] false 0).2
            dl_t) ∧
    (∀ c, streamStatus events [] = some c → ¬(c = B200 ∨ c = B204) →
      (vlessHttpLoop connect ttfb_sample dl_t events [] false 0).1 =
        ⟨connect, -1, 0, "probe-http:" ++ bytesToStr c⟩) ∧
    (∀ body_total : ℕ,
      (1/1000 < dl_t →
        vlessFinishMbps body_total dl_t = mbps_per_claim body_total dl_t) ∧
      (dl_t ≤ 1/1000 → vlessFinishMbps body_total dl_t = 1/100) ∧
      0 < vlessFinishMbps body_total dl_t) := by
  have hs := vlessHttpLoop_cases connect ttfb_sample dl_t events [] 0 rfl
  have hform : ∀ body_total : ℕ,
      (1/1000 < dl_t →
        vlessFinishMbps body_total dl_t = mbps_per_claim body_total dl_t) ∧
      (dl_t ≤ 1/1000 → vlessFinishMbps body_total dl_t = 1/100) ∧
      0 < vlessFinishMbps body_total dl_t := by
    intro body_total
    refine ⟨?_, ?_, vlessFinishMbps_pos _ _⟩
    · intro h
      unfold vlessFinishMbps mbps_per_claim
      rw [if_pos h]
    · intro h
      unfold vlessFinishMbps
      rw [if_neg (not_lt.2 h)]
      norm_num
  cases hstream : streamStatus events [] with
  | none =>
    obtain ⟨herr, hmbps⟩ := hs.1 hstream
    refine ⟨?_, ?_, ?_, hform⟩
    · constructor
      · intro h
        exact absurd h herr
      · rintro ⟨c, hc, _⟩
        exact Option.noConfusion hc
    · intro h
      exact absurd h herr
    · intro c hc
      exact Option.noConfusion hc
  | some c =>
    by_cases hgood : c = B200 ∨ c = B204
    · obtain ⟨herr, hmbps⟩ := hs.2.1 c hstream hgood
      refine ⟨?_, ?_, ?_, hform⟩
      · exact ⟨fun _ => ⟨c, rfl, hgood⟩, fun _ => herr⟩
      · intro _
        refine ⟨?_, hmbps⟩
        rw [hmbps]
        exact vlessFinishMbps_pos _ _
      · intro c' hc' hbad'
        have hcc : c = c' := Option.some_inj.1 hc'
        subst hcc
        exact absurd hgood hbad'
    · have hbad := hs.2.2 c hstream hgood
      refine ⟨?_, ?_, ?_, hform⟩
      · constructor
        · intro h
          rw [hbad] at h
          exact absurd h (probe_http_ne_empty c)
        · rintro ⟨c', hc', hgood'⟩
          have hcc : c = c' := Option.some_inj.1 hc'
          subst hcc
          exact absurd hgood' hgood
      · intro h
        rw [hbad] at h
        exact absurd h (probe_http_ne_empty c)
      · intro c' hc' _
        have hcc : c = c' := Option.some_inj.1 hc'
        subst hcc
        exact hbad

set_option maxRecDepth 20000 in
/-- Closed witness for `vless_probe_inner_status`. -/
theorem vless_probe_inner_status_witness :
    0 < (vlessHttpLoop 5 2 (1/1000) probeCtrexEvents [] false 0).1.mbps :=
  ((vless_probe_inner_status probeCtrexEvents 5 2 (1/1000)).2.1
    (by decide)).1

end Cfray

namespace Cfray

/-! ### WebSocket framing (`_ws_frame_encode` and
`_WsFrameParser.next_frame`, scanner.py lines 1729-1784)

The random 4-byte mask (`secrets.token_bytes(4)`) is a parameter.  The
parser's mutable buffer is modelled by also returning the remaining buffer
(`del self._buf[:off + plen]`), so `buffered` is the length of the third
component. -/

/-- `bytes(b ^ mask[i % 4] for i, b in enumerate(data))`, with the
enumeration starting at `i`. -/
def maskBytes (mask : List ℕ) : ℕ → List ℕ → List ℕ
  | _, [] => []
  | i, b :: bs => (b ^^^ mask.getD (i % 4) 0) :: maskBytes mask (i + 1) bs

/-- `n.to_bytes(w, 'big')` (Python raises `OverflowError` when
`n ≥ 256^w`). -/
def toBytesBE (n w : ℕ) : List ℕ :=
  match w with
  | 0 => []
  | w + 1 => toBytesBE (n / 256) w ++ [n % 256]

/-- `int.from_bytes(bs, 'big')`. -/
def fromBytesBE (bs : List ℕ) : ℕ :=
  bs.foldl (fun acc b => acc * 256 + b) 0

/-- `_ws_frame_encode(data, opcode)`: masked client frame with FIN set. -/
def _ws_frame_encode (data : List ℕ) (opcode : ℕ) (mask : List ℕ) :
    List ℕ :=
  let masked := maskBytes mask 0 data
  let header :=
    if data.length ≤ 125 then
      [0x80 ||| opcode, 0x80 ||| data.length]
    else if data.length ≤ 65535 then
      [0x80 ||| opcode, 0xFE] ++ toBytesBE data.length 2
    else
      [0x80 ||| opcode, 0xFF] ++ toBytesBE data.length 8
  header ++ mask ++ masked

/-- Tail of `_WsFrameParser.next_frame` past the payload-length parse: the
mask-key completeness check, the whole-frame completeness check,
extraction, unmasking and buffer consumption.  The source's mutable
`off += 4` under `if masked:` is specialized per mask flag, so
`buf[off-4:off]` becomes `buf[off : off+4]` of the incoming offset. -/
def next_frame_finish (buf : List ℕ) (opcode : ℕ) (masked : Bool)
    (off plen : ℕ) : Option (ℕ × List ℕ × List ℕ) :=
  match masked with
  | true =>
    if buf.length < off + 4 then none
    else if buf.length < (off + 4) + plen then none
    else
      some (opcode,
        maskBytes ((buf.drop off).take 4) 0 ((buf.drop (off + 4)).take plen),
        buf.drop ((off + 4) + plen))
  | false =>
    if buf.length < off + plen then none
    else some (opcode, (buf.drop off).take plen, buf.drop (off + plen))

/-- `_WsFrameParser.next_frame`.  The source's local variables `opcode`,
`masked` and `plen` are inlined. -/
def next_frame (buf : List ℕ) : Option (ℕ × List ℕ × List ℕ) :=
  if buf.length < 2 then none
  else if buf.getD 1 0 &&& 0x7F = 126 then
    if buf.length < 4 then none
    else next_frame_finish buf (buf.getD 0 0 &&& 0x0F)
      ((buf.getD 1 0 &&& 0x80) != 0) 4 (fromBytesBE ((buf.drop 2).take 2))
  else if buf.getD 1 0 &&& 0x7F = 127 then
    if buf.length < 10 then none
    else next_frame_finish buf (buf.getD 0 0 &&& 0x0F)
      ((buf.getD 1 0 &&& 0x80) != 0) 10 (fromBytesBE ((buf.drop 2).take 8))
  else next_frame_finish buf (buf.getD 0 0 &&& 0x0F)
    ((buf.getD 1 0 &&& 0x80) != 0) 2 (buf.getD 1 0 &&& 0x7F)

lemma maskBytes_length (mask : List ℕ) (i : ℕ) (l : List ℕ) :
    (maskBytes mask i l).length = l.length := by
  induction l generalizing i with
  | nil => rfl
  | cons b bs ih => simp [maskBytes, ih]

lemma maskBytes_maskBytes (mask : List ℕ) (i : ℕ) (l : List ℕ) :
    maskBytes mask i (maskBytes mask i l) = l := by
  induction l generalizing i with
  | nil => rfl
  | cons b bs ih =>
    simp only [maskBytes, ih]
    congr 1
    rw [Nat.xor_assoc, Nat.xor_self, Nat.xor_zero]

lemma toBytesBE_length (n w : ℕ) : (toBytesBE n w).length = w := by
  induction w generalizing n with
  | zero => rfl
  | succ w ih => simp [toBytesBE, ih]

lemma fromBytesBE_toBytesBE (w n : ℕ) :
    fromBytesBE (toBytesBE n w) = n % 256 ^ w := by
  induction w generalizing n with
  | zero => simp [toBytesBE, fromBytesBE, Nat.mod_one]
  | succ w ih =>
    have happ : fromBytesBE (toBytesBE (n / 256) w ++ [n % 256]) =
        fromBytesBE (toBytesBE (n / 256) w) * 256 + n % 256 := by
      unfold fromBytesBE
      rw [List.foldl_append]
      rfl
    rw [toBytesBE, happ, ih]
    rw [pow_succ, mul_comm (256 ^ w) 256, Nat.mod_mul]
    ring

end Cfray

namespace Cfray

lemma lor128_land15 (op : ℕ) (h : op ≤ 15) : (128 ||| op) &&& 15 = op := by
  interval_cases op <;> decide

lemma lor128_land127 (x : ℕ) (h : x ≤ 125) : (128 ||| x) &&& 127 = x := by
  interval_cases x <;> decide

lemma lor128_masked (x : ℕ) (h : x ≤ 125) :
    (((128 ||| x) &&& 128) != 0) = true := by
  interval_cases x <;> decide

lemma next_frame_finish_encode (opcode : ℕ) (mask data ext : List ℕ)
    (h0 h1 : ℕ) (hm : mask.length = 4) :
    next_frame_finish
        (h0 :: h1 :: (ext ++ (mask ++ maskBytes mask 0 data))) opcode true
        (2 + ext.length) data.length
      = some (opcode, data, []) := by
  have hlen : (h0 :: h1 :: (ext ++ (mask ++ maskBytes mask 0 data))).length
      = 2 + ext.length + 4 + data.length := by
    simp [hm, maskBytes_length]
    omega
  have hdrop : (h0 :: h1 :: (ext ++ (mask ++ maskBytes mask 0 data))).drop
      (2 + ext.length + 4) = maskBytes mask 0 data := by
    rw [show 2 + ext.length + 4 = (ext.length + 4) + 1 + 1 by omega,
      List.drop_succ_cons, List.drop_succ_cons,
      List.drop_append_eq_append_drop,
      List.drop_eq_nil_of_le (by omega), List.nil_append,
      show ext.length + 4 - ext.length = 4 by omega, ← hm, List.drop_left]
  have hdropk : (h0 :: h1 :: (ext ++ (mask ++ maskBytes mask 0 data))).drop
      (2 + ext.length) = mask ++ maskBytes mask 0 data := by
    rw [show 2 + ext.length = ext.length + 1 + 1 by omega,
      List.drop_succ_cons, List.drop_succ_cons, List.drop_left]
  have hdropall : (h0 :: h1 :: (ext ++ (mask ++ maskBytes mask 0 data))).drop
      (2 + ext.length + 4 + data.length) = [] :=
    List.drop_eq_nil_of_le (le_of_eq hlen)
  unfold next_frame_finish
  dsimp only
  rw [if_neg (by rw [hlen]; omega), if_neg (by rw [hlen]; omega)]
  rw [show (2 + ext.length) + 4 = 2 + ext.length + 4 by omega]
  rw [hdrop, hdropk]
  rw [List.take_of_length_le (le_of_eq (maskBytes_length mask 0 data))]
  rw [List.take_left' hm, maskBytes_maskBytes, hdropall]

lemma next_frame_finish_none (buf : List ℕ) (opcode off plen : ℕ)
    (h : buf.length < off + 4 + plen) :
    next_frame_finish buf opcode true off plen = none := by
  unfold next_frame_finish
  dsimp only
  by_cases h1 : buf.length < off + 4
  · rw [if_pos h1]
  · rw [if_neg h1, if_pos (by omega)]

end Cfray

namespace Cfray

lemma prefix_getD (pfx t full : List ℕ) (heq : pfx ++ t = full) (i : ℕ)
    (h : i < pfx.length) : pfx.getD i 0 = full.getD i 0 := by
  subst heq
  rw [List.getD_append _ _ _ _ h]

lemma prefix_take_drop (pfx t full : List ℕ) (heq : pfx ++ t = full)
    (a b : ℕ) (h : a + b ≤ pfx.length) :
    (pfx.drop a).take b = (full.drop a).take b := by
  subst heq
  rw [List.drop_append_of_le_length (by omega),
    List.take_append_of_le_length (by simp; omega)]

lemma prefix_length_lt (pfx t full : List ℕ) (heq : pfx ++ t = full)
    (hne : t ≠ []) : pfx.length < full.length := by
  subst heq
  rw [List.length_append]
  cases t with
  | nil => exact absurd rfl hne
  | cons x xs => simp

end Cfray

namespace Cfray

lemma ws_roundtrip_small (data mask : List ℕ) (opcode : ℕ)
    (hm : mask.length = 4) (hop : opcode ≤ 15) (hA : data.length ≤ 125) :
    next_frame (_ws_frame_encode data opcode mask) =
      some (opcode, data, []) ∧
    ∀ pfx t, pfx ++ t = _ws_frame_encode data opcode mask → t ≠ [] →
      next_frame pfx = none := by
  have henc : _ws_frame_encode data opcode mask =
      (128 ||| opcode) :: (128 ||| data.length) ::
        (mask ++ maskBytes mask 0 data) := by
    unfold _ws_frame_encode
    rw [if_pos hA]
    simp
  have hfull_len : (_ws_frame_encode data opcode mask).length =
      2 + 4 + data.length := by
    rw [henc, List.length_cons, List.length_cons, List.length_append, hm,
      maskBytes_length]
    omega
  constructor
  · rw [henc]
    unfold next_frame
    have hg0 : ((128 ||| opcode) :: (128 ||| data.length) ::
        (mask ++ maskBytes mask 0 data)).getD 0 0 = 128 ||| opcode := rfl
    have hg1 : ((128 ||| opcode) :: (128 ||| data.length) ::
        (mask ++ maskBytes mask 0 data)).getD 1 0 =
        128 ||| data.length := rfl
    rw [if_neg (by rw [List.length_cons, List.length_cons]; omega),
      hg0, hg1, lor128_land127 _ hA, lor128_land15 _ hop,
      lor128_masked _ hA, if_neg (by omega), if_neg (by omega)]
    simpa using next_frame_finish_encode opcode mask data []
      (128 ||| opcode) (128 ||| data.length) hm
  · intro pfx t heq hne
    have hplt : pfx.length < 2 + 4 + data.length := by
      have h := prefix_length_lt pfx t _ heq hne
      rwa [hfull_len] at h
    by_cases hp2 : pfx.length < 2
    · unfold next_frame
      rw [if_pos hp2]
    · have hg0 : pfx.getD 0 0 = 128 ||| opcode := by
        rw [prefix_getD pfx t _ heq 0 (by omega), henc]
        rfl
      have hg1 : pfx.getD 1 0 = 128 ||| data.length := by
        rw [prefix_getD pfx t _ heq 1 (by omega), henc]
        rfl
      unfold next_frame
      rw [if_neg hp2, hg0, hg1, lor128_land127 _ hA, lor128_land15 _ hop,
        lor128_masked _ hA, if_neg (by omega), if_neg (by omega)]
      exact next_frame_finish_none pfx _ 2 data.length (by omega)

lemma ws_roundtrip_mid (data mask : List ℕ) (opcode : ℕ)
    (hm : mask.length = 4) (hop : opcode ≤ 15) (hlo : 125 < data.length)
    (hhi : data.length ≤ 65535) :
    next_frame (_ws_frame_encode data opcode mask) =
      some (opcode, data, []) ∧
    ∀ pfx t, pfx ++ t = _ws_frame_encode data opcode mask → t ≠ [] →
      next_frame pfx = none := by
  have henc : _ws_frame_encode data opcode mask =
      (128 ||| opcode) :: 254 ::
        (toBytesBE data.length 2 ++ (mask ++ maskBytes mask 0 data)) := by
    unfold _ws_frame_encode
    rw [if_neg (by omega), if_pos hhi]
    simp
  have hfull_len : (_ws_frame_encode data opcode mask).length =
      2 + 2 + 4 + data.length := by
    rw [henc, List.length_cons, List.length_cons, List.length_append,
      List.length_append, hm, maskBytes_length, toBytesBE_length]
    omega
  have hplen : fromBytesBE ((toBytesBE data.length 2 ++
      (mask ++ maskBytes mask 0 data)).take 2) = data.length := by
    rw [List.take_left' (toBytesBE_length data.length 2),
      fromBytesBE_toBytesBE]
    exact Nat.mod_eq_of_lt (by norm_num; omega)
  constructor
  · rw [henc]
    unfold next_frame
    have hg0 : ((128 ||| opcode) :: 254 :: (toBytesBE data.length 2 ++
        (mask ++ maskBytes mask 0 data))).getD 0 0 = 128 ||| opcode := rfl
    have hg1 : ((128 ||| opcode) :: 254 :: (toBytesBE data.length 2 ++
        (mask ++ maskBytes mask 0 data))).getD 1 0 = 254 := rfl
    have hdrop2 : ((128 ||| opcode) :: 254 :: (toBytesBE data.length 2 ++
        (mask ++ maskBytes mask 0 data))).drop 2 =
        toBytesBE data.length 2 ++ (mask ++ maskBytes mask 0 data) := rfl
    rw [if_neg (by rw [List.length_cons, List.length_cons]; omega),
      hg0, hg1, hdrop2]
    rw [if_pos (by decide : (254 : ℕ) &&& 127 = 126)]
    rw [if_neg (by
      rw [List.length_cons, List.length_cons, List.length_append,
        toBytesBE_length]
      omega)]
    rw [hplen, lor128_land15 _ hop,
      (by decide : (((254 : ℕ) &&& 128) != 0) = true)]
    have h := next_frame_finish_encode opcode mask data
      (toBytesBE data.length 2) (128 ||| opcode) 254 hm
    rwa [toBytesBE_length] at h
  · intro pfx t heq hne
    have hplt : pfx.length < 2 + 2 + 4 + data.length := by
      have h := prefix_length_lt pfx t _ heq hne
      rwa [hfull_len] at h
    by_cases hp2 : pfx.length < 2
    · unfold next_frame
      rw [if_pos hp2]
    · have hg0 : pfx.getD 0 0 = 128 ||| opcode := by
        rw [prefix_getD pfx t _ heq 0 (by omega), henc]
        rfl
      have hg1 : pfx.getD 1 0 = 254 := by
        rw [prefix_getD pfx t _ heq 1 (by omega), henc]
        rfl
      unfold next_frame
      rw [if_neg hp2, hg0, hg1]
      rw [if_pos (by decide : (254 : ℕ) &&& 127 = 126)]
      by_cases hp4 : pfx.length < 4
      · rw [if_pos hp4]
      · rw [if_neg hp4]
        have htk : (pfx.drop 2).take 2 =
            (toBytesBE data.length 2 ++
              (mask ++ maskBytes mask 0 data)).take 2 := by
          have h := prefix_take_drop pfx t _ heq 2 2 (by omega)
          rw [henc] at h
          exact h
        rw [htk, hplen, lor128_land15 _ hop,
          (by decide : (((254 : ℕ) &&& 128) != 0) = true)]
        exact next_frame_finish_none pfx _ 4 data.length (by omega)

lemma ws_roundtrip_large (data mask : List ℕ) (opcode : ℕ)
    (hm : mask.length = 4) (hop : opcode ≤ 15) (hlo : 65535 < data.length)
    (hhi : data.length < 2 ^ 64) :
    next_frame (_ws_frame_encode data opcode mask) =
      some (opcode, data, []) ∧
    ∀ pfx t, pfx ++ t = _ws_frame_encode data opcode mask → t ≠ [] →
      next_frame pfx = none := by
  have henc : _ws_frame_encode data opcode mask =
      (128 ||| opcode) :: 255 ::
        (toBytesBE data.length 8 ++ (mask ++ maskBytes mask 0 data)) := by
    unfold _ws_frame_encode
    rw [if_neg (by omega), if_neg (by omega)]
    simp
  have hfull_len : (_ws_frame_encode data opcode mask).length =
      2 + 8 + 4 + data.length := by
    rw [henc, List.length_cons, List.length_cons, List.length_append,
      List.length_append, hm, maskBytes_length, toBytesBE_length]
    omega
  have hplen : fromBytesBE ((toBytesBE data.length 8 ++
      (mask ++ maskBytes mask 0 data)).take 8) = data.length := by
    rw [List.take_left' (toBytesBE_length data.length 8),
      fromBytesBE_toBytesBE]
    refine Nat.mod_eq_of_lt ?_
    calc data.length < 2 ^ 64 := hhi
    _ = 256 ^ 8 := by norm_num
  constructor
  · rw [henc]
    unfold next_frame
    have hg0 : ((128 ||| opcode) :: 255 :: (toBytesBE data.length 8 ++
        (mask ++ maskBytes mask 0 data))).getD 0 0 = 128 ||| opcode := rfl
    have hg1 : ((128 ||| opcode) :: 255 :: (toBytesBE data.length 8 ++
        (mask ++ maskBytes mask 0 data))).getD 1 0 = 255 := rfl
    have hdrop2 : ((128 ||| opcode) :: 255 :: (toBytesBE data.length 8 ++
        (mask ++ maskBytes mask 0 data))).drop 2 =
        toBytesBE data.length 8 ++ (mask ++ maskBytes mask 0 data) := rfl
    rw [if_neg (by rw [List.length_cons, List.length_cons]; omega),
      hg0, hg1, hdrop2]
    rw [if_neg (by decide : ¬ ((255 : ℕ) &&& 127 = 126))]
    rw [if_pos (by decide : (255 : ℕ) &&& 127 = 127)]
    rw [if_neg (by
      rw [List.length_cons, List.length_cons, List.length_append,
        toBytesBE_length]
      omega)]
    rw [hplen, lor128_land15 _ hop,
      (by decide : (((255 : ℕ) &&& 128) != 0) = true)]
    have h := next_frame_finish_encode opcode mask data
      (toBytesBE data.length 8) (128 ||| opcode) 255 hm
    rwa [toBytesBE_length] at h
  · intro pfx t heq hne
    have hplt : pfx.length < 2 + 8 + 4 + data.length := by
      have h := prefix_length_lt pfx t _ heq hne
      rwa [hfull_len] at h
    by_cases hp2 : pfx.length < 2
    · unfold next_frame
      rw [if_pos hp2]
    · have hg0 : pfx.getD 0 0 = 128 ||| opcode := by
        rw [prefix_getD pfx t _ heq 0 (by omega), henc]
        rfl
      have hg1 : pfx.getD 1 0 = 255 := by
        rw [prefix_getD pfx t _ heq 1 (by omega), henc]
        rfl
      unfold next_frame
      rw [if_neg hp2, hg0, hg1]
      rw [if_neg (by decide : ¬ ((255 : ℕ) &&& 127 = 126))]
      rw [if_pos (by decide : (255 : ℕ) &&& 127 = 127)]
      by_cases hp10 : pfx.length < 10
      · rw [if_pos hp10]
      · rw [if_neg hp10]
        have htk : (pfx.drop 2).take 8 =
            (toBytesBE data.length 8 ++
              (mask ++ maskBytes mask 0 data)).take 8 := by
          have h := prefix_take_drop pfx t _ heq 2 8 (by omega)
          rw [henc] at h
          exact h
        rw [htk, hplen, lor128_land15 _ hop,
          (by decide : (((255 : ℕ) &&& 128) != 0) = true)]
        exact next_frame_finish_none pfx _ 10 data.length (by omega)

/-- C10: WebSocket framing round-trip.  For every byte payload, every
opcode in `[0, 15]` and every 4-byte mask, parsing the encoder's output
with a fresh `_WsFrameParser` yields exactly `(opcode, data)` and consumes
the whole frame (`buffered` drops to 0, i.e. the remaining buffer is
empty); `next_frame` on any strict prefix of the frame returns `None`. -/
theorem ws_frame_roundtrip (data mask : List ℕ) (opcode : ℕ)
    (hm : mask.length = 4) (hop : opcode ≤ 15)
    (hdata : ∀ b ∈ data, b < 256) (hmask : ∀ b ∈ mask, b < 256)
    (hlen : data.length < 2 ^ 64) :
    next_frame (_ws_frame_encode data opcode mask) =
      some (opcode, data, []) ∧
    ∀ pfx t, pfx ++ t = _ws_frame_encode data opcode mask → t ≠ [] →
      next_frame pfx = none := by
  by_cases hA : data.length ≤ 125
  · exact ws_roundtrip_small data mask opcode hm hop hA
  · by_cases hB : data.length ≤ 65535
    · exact ws_roundtrip_mid data mask opcode hm hop (by omega) hB
    · exact ws_roundtrip_large data mask opcode hm hop (by omega) hlen

/-- Closed witness for `ws_frame_roundtrip`. -/
theorem ws_frame_roundtrip_witness :
    next_frame (_ws_frame_encode [1, 2] 2 [7, 8, 9, 10]) =
      some (2, [1, 2], []) :=
  (ws_frame_roundtrip [1, 2] [7, 8, 9, 10] 2 (by decide) (by decide)
    (by decide) (by decide) (by norm_num)).1

end Cfray
